import Mathlib

/-!
Verification development for the ICB Place Based Tool repository.

The core pipeline (src/utils.py) is shallowly embedded here:
  - Python numeric values (floats idealized as exact rationals, since
    `Decimal(str(x))` reads back the decimal representation of a float)
    are modelled by `PyVal`;
  - `excel_round` models the rounding utility, including the fact that
    its `except (ValueError, InvalidOperation)` clause references the
    name `InvalidOperation`, which is not imported in src/utils.py, so
    any exception raised inside the `try` block surfaces as a NameError;
  - pandas DataFrames are modelled as a column list together with rows
    of (column, value) pairs; `aggregate`, `get_index` and
    `get_data_for_all_years` follow src/utils.py line by line, with the
    pandas alignment rules for `DataFrame.div` with a 2-d ndarray
    (equal shape, or single-row broadcast, otherwise ValueError);
  - the session-state JSON dump/load of src/ICB_Place_Based_Tool.py is
    modelled over an ordered dictionary with Python dict semantics.
-/

/-- A Python runtime value as it appears in the tool: strings, booleans,
integers, and floats (split into finite values, NaN and infinities;
finite floats are idealized as the exact rational value of their decimal
representation). -/
inductive PyVal where
  | str (s : String)
  | bool (b : Bool)
  | int (n : ℤ)
  | fnum (q : ℚ)
  | nan
  | inf (pos : Bool)
deriving DecidableEq, Repr

/-- Errors that the embedded pipeline can raise: the NameError produced by
the broken `except` clause of `excel_round`, the pandas ValueError for a
shape mismatch in `DataFrame.div`, and the pandas ValueError for
`pd.concat` on an empty list. -/
inductive PdError where
  | nameError
  | unableToCoerce
  | noObjects
deriving DecidableEq, Repr

/-- The result of `isinstance(number, (int, float))`: Python booleans are a
subclass of int, so they count as numeric; NaN and infinities are floats. -/
def pyIsNumeric : PyVal → Bool
  | .str _ => false
  | _ => true

/-- An exact decimal number m / 10 ^ e, as produced by `Decimal(str(x))`
in Python: an integer mantissa together with a decimal exponent. -/
structure Dec where
  m : ℤ
  e : ℕ
deriving DecidableEq, Repr

/-- The rational value of a decimal number. -/
def Dec.toRat (d : Dec) : ℚ := (d.m : ℚ) / (10 : ℚ) ^ d.e

/-- Integer rounding with ROUND_HALF_UP tie-breaking exactly as the Python
`decimal` module performs it: work on the sign and the absolute value of
the mantissa, round the magnitude up when the discarded remainder is at
least half of the divisor. -/
def halfUpInt (s : ℚ) : ℤ :=
  let n : ℕ := s.num.natAbs
  let d : ℕ := s.den
  let mag : ℕ := if d ≤ 2 * (n % d) then n / d + 1 else n / d
  if s.num < 0 then -(mag : ℤ) else (mag : ℤ)

/-- `Decimal.quantize(Decimal(p), rounding=ROUND_HALF_UP)` for a target
exponent of `e` decimal places: scale by 10 ^ e, round the mantissa half
up (away from zero), and scale back. -/
def quantizeHalfUp (q : ℚ) (e : ℕ) : ℚ :=
  (halfUpInt (q * (10 : ℚ) ^ e) : ℚ) / (10 : ℚ) ^ e

/-- Python `round` on a float: banker's rounding, ties to even. -/
def roundHalfEven (q : ℚ) : ℤ :=
  if q - ⌊q⌋ < 1 / 2 then ⌊q⌋
  else if 1 / 2 < q - ⌊q⌋ then ⌊q⌋ + 1
  else if ⌊q⌋ % 2 = 0 then ⌊q⌋ else ⌊q⌋ + 1

/-- The spec's description of the tie-breaking rule, written independently
of the implementation: round to the nearest integer, breaking ties away
from zero. -/
def roundHalfAwayZero (q : ℚ) : ℤ :=
  if 0 ≤ q then ⌊q + 1 / 2⌋ else ⌈q - 1 / 2⌉

/-- The spec's decimal rounding to `e` decimal places with ties away from
zero, phrased with `roundHalfAwayZero`. -/
def specRoundHalfAway (x : ℚ) (e : ℕ) : ℚ :=
  (roundHalfAwayZero (x * (10 : ℚ) ^ e) : ℚ) / (10 : ℚ) ^ e

/-- `excel_round` from src/utils.py.  Strings fall through the isinstance
check and are returned unchanged.  For `precision > 1` the code computes
`round(number / precision) * precision` with Python `round`; `round` on
NaN or an infinity raises, and evaluating the `except` tuple then raises
NameError because `InvalidOperation` is not imported.  Otherwise the code
quantizes `Decimal(str(number))` to the exponent of `precision` with
ROUND_HALF_UP; `Decimal(str(True))` raises InvalidOperation (again
surfacing as NameError), and so does quantizing NaN or an infinity. -/
def excel_round (number : PyVal) (precision : Dec) : Except PdError PyVal :=
  if pyIsNumeric number then
    if 1 < precision.toRat then
      match number with
      | .bool b =>
          .ok (.fnum ((roundHalfEven ((if b then 1 else 0) / precision.toRat) : ℚ) * precision.toRat))
      | .int n => .ok (.fnum ((roundHalfEven ((n : ℚ) / precision.toRat) : ℚ) * precision.toRat))
      | .fnum q => .ok (.fnum ((roundHalfEven (q / precision.toRat) : ℚ) * precision.toRat))
      | _ => .error .nameError
    else
      match number with
      | .int n => .ok (.fnum (quantizeHalfUp (n : ℚ) precision.e))
      | .fnum q => .ok (.fnum (quantizeHalfUp q precision.e))
      | _ => .error .nameError
  else .ok number

/-- On naturals, dividing `2 * n + d` by `2 * d` is `n / d` plus one
exactly when the remainder `n % d` is at least half of `d`. -/
theorem nat_half_up_div (n d : ℕ) (hd : 0 < d) :
    (2 * n + d) / (2 * d) = n / d + (if d ≤ 2 * (n % d) then 1 else 0) := by
  have hmod := Nat.div_add_mod n d
  have hlt : n % d < d := Nat.mod_lt n hd
  have hrw : 2 * n + d = 2 * d * (n / d) + (2 * (n % d) + d) := by
    conv_lhs => rw [← hmod]
    ring
  rw [hrw, Nat.mul_add_div (by omega)]
  congr 1
  by_cases hc : d ≤ 2 * (n % d)
  · rw [if_pos hc]
    have hlo : 1 * (2 * d) ≤ 2 * (n % d) + d := by omega
    have hhi : 2 * (n % d) + d < (1 + 1) * (2 * d) := by omega
    exact Nat.div_eq_of_lt_le hlo hhi
  · rw [if_neg hc]
    exact Nat.div_eq_of_lt (by omega)

/-- Floor of `n / d + 1 / 2` over the naturals, expressed as a natural
division. -/
theorem floor_add_half_nat (n d : ℕ) (hd : 0 < d) :
    ⌊(n : ℚ) / (d : ℚ) + 1 / 2⌋ = (((2 * n + d) / (2 * d) : ℕ) : ℤ) := by
  have hval : (n : ℚ) / (d : ℚ) + 1 / 2 = (((2 * n + d : ℕ) : ℤ) : ℚ) / (((2 * d : ℕ)) : ℚ) := by
    have hdq : ((d : ℚ)) ≠ 0 := by positivity
    push_cast
    field_simp
    ring
  rw [hval, Rat.floor_intCast_div_natCast ((2 * n + d : ℕ) : ℤ) (2 * d)]
  norm_cast

/-- For a nonnegative rational, rounding half away from zero is floor of
the value plus one half. -/
theorem halfUpInt_nonneg (s : ℚ) (hs : 0 ≤ s) : halfUpInt s = ⌊s + 1 / 2⌋ := by
  have hnum : 0 ≤ s.num := Rat.num_nonneg.mpr hs
  have hden : 0 < s.den := s.pos
  have habs : (s.num.natAbs : ℤ) = s.num := Int.natAbs_of_nonneg hnum
  have habsQ : ((s.num.natAbs : ℚ)) = (s.num : ℚ) := by
    rw [Int.cast_natAbs]
    exact_mod_cast abs_of_nonneg hnum
  have hrepr : s = ((s.num.natAbs : ℕ) : ℚ) / ((s.den : ℕ) : ℚ) := by
    rw [habsQ]
    exact (Rat.num_div_den s).symm
  have hfloor : ⌊s + 1 / 2⌋ = (((2 * s.num.natAbs + s.den) / (2 * s.den) : ℕ) : ℤ) := by
    conv_lhs => rw [hrepr]
    exact floor_add_half_nat s.num.natAbs s.den hden
  rw [hfloor, nat_half_up_div s.num.natAbs s.den hden]
  unfold halfUpInt
  have hneg : ¬ s.num < 0 := not_lt.mpr hnum
  simp only [hneg, if_false]
  by_cases hc : s.den ≤ 2 * (s.num.natAbs % s.den) <;> simp [hc]

/-- Negation swaps the sign in the half-up integer rounding. -/
theorem halfUpInt_neg (s : ℚ) : halfUpInt (-s) = -halfUpInt s := by
  unfold halfUpInt
  rcases lt_trichotomy s.num 0 with h | h | h
  · have h1 : (-s).num = -s.num := Rat.neg_num s
    have h2 : (-s).den = s.den := Rat.neg_den s
    simp only [h1, h2, Int.natAbs_neg]
    have hpos : 0 < -s.num := by omega
    have : ¬ -s.num < 0 := by omega
    simp [h, this]
  · have hz : s = 0 := by
      have := Rat.num_eq_zero.mp h
      simpa using this
    subst hz
    norm_num [halfUpInt]
  · have h1 : (-s).num = -s.num := Rat.neg_num s
    have h2 : (-s).den = s.den := Rat.neg_den s
    simp only [h1, h2, Int.natAbs_neg]
    have : -s.num < 0 := by omega
    have hnot : ¬ s.num < 0 := by omega
    simp [this, hnot]

/-- The decimal-module mechanics of `halfUpInt` agree with the spec's
description: round to the nearest integer with ties away from zero. -/
theorem halfUpInt_eq_roundHalfAwayZero (s : ℚ) : halfUpInt s = roundHalfAwayZero s := by
  unfold roundHalfAwayZero
  by_cases hs : 0 ≤ s
  · rw [if_pos hs, halfUpInt_nonneg s hs]
  · rw [if_neg hs]
    have hneg : 0 ≤ -s := by linarith [not_le.mp hs]
    have h1 : halfUpInt s = -halfUpInt (-s) := by
      rw [halfUpInt_neg]; ring
    rw [h1, halfUpInt_nonneg (-s) hneg]
    rw [show s - 1 / 2 = -(-s + 1 / 2) by ring, Int.ceil_neg]

/-- Quantizing with ROUND_HALF_UP computes exactly the spec's decimal
rounding with ties away from zero. -/
theorem quantizeHalfUp_eq_spec (q : ℚ) (e : ℕ) :
    quantizeHalfUp q e = specRoundHalfAway q e := by
  unfold quantizeHalfUp specRoundHalfAway
  rw [halfUpInt_eq_roundHalfAwayZero]

/-- A DataFrame row: an ordered list of (column name, value) pairs. -/
abbrev Row := List (String × PyVal)

/-- A pandas DataFrame: a column schema together with the rows.  The group
key produced by `groupby` is a row index, which `pd.concat(...,
ignore_index=True)` discards, so grouped frames simply omit it. -/
structure DF where
  cols : List String
  rows : List Row
deriving DecidableEq, Repr

/-- Column access on a row (all accesses in the pipeline hit existing
columns; a missing column is given NaN so that the function is total). -/
def Row.get (r : Row) (c : String) : PyVal :=
  match r.find? (fun cv => cv.1 == c) with
  | some cv => cv.2
  | none => .nan

/-- Whether a row carries a column. -/
def Row.hasCol (r : Row) (c : String) : Bool := r.any (fun cv => cv.1 == c)

/-- Column assignment on a row: pandas replaces the values of an existing
column in place and appends a new column at the end. -/
def Row.setCol (r : Row) (c : String) (v : PyVal) : Row :=
  if r.hasCol c then r.map (fun cv => if cv.1 == c then (c, v) else cv) else r ++ [(c, v)]

/-- Assign a list of (column, value) pairs left to right. -/
def Row.setCols (r : Row) (pairs : List (String × PyVal)) : Row :=
  pairs.foldl (fun acc cv => acc.setCol cv.1 cv.2) r

/-- Schema update matching `Row.setCol`: new columns are appended. -/
def colsUnion (cs : List String) (new : List String) : List String :=
  new.foldl (fun acc c => if c ∈ acc then acc else acc ++ [c]) cs

/-- `df.query(...)`: keep the rows satisfying the predicate; the schema is
unchanged and a copy is returned. -/
def DF.query (df : DF) (p : Row → Bool) : DF := { cols := df.cols, rows := df.rows.filter p }

/-- Float division as numpy/pandas perform it elementwise: division by
zero yields an infinity (NaN for 0/0), NaN is absorbing. -/
def pdiv : PyVal → PyVal → PyVal
  | .fnum a, .fnum b => if b = 0 then (if a = 0 then .nan else .inf (0 < a)) else .fnum (a / b)
  | .inf s, .fnum b => if b = 0 then .inf s else .inf (s = (0 ≤ b))
  | .fnum _, .inf _ => .fnum 0
  | .inf _, .inf _ => .nan
  | _, _ => .nan

/-- Float addition for aggregation sums. -/
def padd : PyVal → PyVal → PyVal
  | .fnum a, .fnum b => .fnum (a + b)
  | .inf s, .fnum _ => .inf s
  | .fnum _, .inf s => .inf s
  | .inf s, .inf t => if s = t then .inf s else .nan
  | _, _ => .nan

/-- `groupby(...).agg("sum")` on one column of one group: pandas sums the
non-NaN values starting from 0 (booleans and ints coerce to floats). -/
def groupSum (vs : List PyVal) : PyVal :=
  vs.foldl (fun acc v =>
    match v with
    | .nan => acc
    | .str _ => acc
    | .bool b => padd acc (.fnum (if b then 1 else 0))
    | .int n => padd acc (.fnum (n : ℚ))
    | x => padd acc x) (.fnum 0)

/-- Deduplicate a list keeping the first occurrence of each element, in
first-occurrence order (the key order of a Python dict built by repeated
insertion, and of a single-valued pandas groupby). -/
def firstDedup {α : Type} [DecidableEq α] (l : List α) : List α :=
  l.foldl (fun acc a => if a ∈ acc then acc else acc ++ [a]) []

/-- `aggregate` from src/utils.py.  If the `on` column is absent it is
inserted at position 0, populated uniformly with `name` — this mutates
the caller's frame, and the first component of the result is the
post-call state of that argument (the code returns `df` itself).  The
second component is `df.groupby(on).agg(aggregations)` where every
aggregation is a sum; the group key becomes the row index, which later
concatenation with `ignore_index=True` drops, so grouped rows list only
the aggregated columns.  Every call in this tool groups a frame whose
`on` column holds at most one distinct value, so the sorted group order
of pandas coincides with first-occurrence order used here. -/
def aggregate (df : DF) (name : String) (onCol : String) (aggs : List String) : DF × DF :=
  let df1 := if onCol ∈ df.cols then df
             else { cols := onCol :: df.cols,
                    rows := df.rows.map (fun r => (onCol, PyVal.str name) :: r) }
  let keys := firstDedup (df1.rows.map (fun r => r.get onCol))
  let grouped : DF :=
    { cols := aggs,
      rows := keys.map (fun k =>
        aggs.map (fun c =>
          (c, groupSum ((df1.rows.filter (fun r => r.get onCol == k)).map (fun r => r.get c))))) }
  (df1, grouped)

/-- The per-row quotients `X[index_numerator].div(X["GP pop"].values,
axis=0)` used twice in `get_index`. -/
def indexQuotients (index_numerator : List String) (r : Row) : List PyVal :=
  index_numerator.map (fun nu => pdiv (r.get nu) (r.get "GP pop"))

/-- `get_index` from src/utils.py.  The ICB frame first gains the index
columns as its per-capita ratios.  The place frame is then divided by
`icb_indices[index_names].values`, a 2-d array: pandas accepts it when
the shapes match, broadcasts it when it has exactly one row, and raises
`ValueError("Unable to coerce to DataFrame...")` otherwise.  Both frames
are mutated with the new columns and returned. -/
def get_index (place_indices icb_indices : DF) (index_names index_numerator : List String) :
    Except PdError (DF × DF) :=
  let icb2 : DF := { cols := colsUnion icb_indices.cols index_names,
                     rows := icb_indices.rows.map (fun r =>
                       r.setCols (index_names.zip (indexQuotients index_numerator r))) }
  let icbVals : List (List PyVal) := icb2.rows.map (fun r => index_names.map (fun nm => r.get nm))
  let placeQ : List (List PyVal) := place_indices.rows.map (indexQuotients index_numerator)
  if icbVals.length = placeQ.length then
    let vals := List.zipWith (fun qs ds => List.zipWith pdiv qs ds) placeQ icbVals
    let place2 : DF := { cols := colsUnion place_indices.cols index_names,
                         rows := List.zipWith (fun r vs => r.setCols (index_names.zip vs))
                                   place_indices.rows vals }
    .ok (place2, icb2)
  else if icbVals.length = 1 then
    let vals := placeQ.map (fun qs => List.zipWith pdiv qs (icbVals.headD []))
    let place2 : DF := { cols := colsUnion place_indices.cols index_names,
                         rows := List.zipWith (fun r vs => r.setCols (index_names.zip vs))
                                   place_indices.rows vals }
    .ok (place2, icb2)
  else .error .unableToCoerce

/-- A place definition as held in the session state: its name, its member
practices (`practice_display` strings) and its owning ICB. -/
structure PlaceSpec where
  name : String
  gps : List String
  icb : String
deriving DecidableEq, Repr

/-- The query string `practice_display == @place_state`: pandas `==`
against a list means membership. -/
def gpMatch (gps : List String) (r : Row) : Bool :=
  match r.get "practice_display" with
  | .str s => gps.contains s
  | _ => false

/-- The query string about the ICB name column, an equality filter. -/
def icbMatch (icbName : String) (r : Row) : Bool := r.get "ICB name" == .str icbName

/-- The grouped place-level aggregation of one loop iteration:
`aggregate(data.query(gp_query), place, "Place Name", aggregations)`. -/
def pgFor (data : DF) (aggs : List String) (p : PlaceSpec) : DF :=
  (aggregate (data.query (gpMatch p.gps)) p.name "Place Name" aggs).2

/-- The grouped ICB-level aggregation of one loop iteration:
`aggregate(data.query(icb_query), icb_state, "ICB name", aggregations)`. -/
def igFor (data : DF) (aggs : List String) (rn : String) : DF :=
  (aggregate (data.query (icbMatch rn)) rn "ICB name" aggs).2

/-- `frame.insert(loc=0, column="Place / ICB", value=tag)`. -/
def tagDF (tag : String) (df : DF) : DF :=
  { cols := "Place / ICB" :: df.cols,
    rows := df.rows.map (fun r => ("Place / ICB", PyVal.str tag) :: r) }

/-- One iteration of the place loop in `get_data_for_all_years`: filter to
the place practices, aggregate, filter to the ICB, aggregate, compute
the indices, then insert the `Place / ICB` discriminator at position 0
of each frame.  Returns the tagged (ICB frame, place frame) pair. -/
def computePlace (data : DF) (p : PlaceSpec) (aggs index_numerator index_names : List String) :
    Except PdError (DF × DF) :=
  match get_index (pgFor data aggs p) (igFor data aggs p.icb) index_names index_numerator with
  | .error e => .error e
  | .ok pr => .ok (tagDF p.icb pr.2, tagDF p.name pr.1)

/-- The `dict_obj` insertion: a new ICB key appends `[icb_frame,
place_frame]` at the end of the dict; an existing key appends the place
frame to its list, keeping the key position. -/
def dictAdd (m : List (String × List DF)) (k : String) (icbT placeT : DF) :
    List (String × List DF) :=
  match m with
  | [] => [(k, [icbT, placeT])]
  | kv :: rest => if kv.1 = k then (kv.1, kv.2 ++ [placeT]) :: rest
                  else kv :: dictAdd rest k icbT placeT

/-- The place loop of `get_data_for_all_years` for one year. -/
def yearLoop (data : DF) (aggs index_numerator index_names : List String) :
    List PlaceSpec → List (String × List DF) → Except PdError (List (String × List DF))
  | [], acc => .ok acc
  | p :: rest, acc =>
    match computePlace data p aggs index_numerator index_names with
    | .error e => .error e
    | .ok tf => yearLoop data aggs index_numerator index_names rest (dictAdd acc p.icb tf.1 tf.2)

/-- Flattening `dict_obj` values into `flat_list`. -/
def flattenDict (m : List (String × List DF)) : List DF := (m.map (fun kv => kv.2)).flatten

/-- `pd.concat(flat_list, ignore_index=True)`: raises on an empty list;
all frames here share one schema, so concatenation stacks the rows. -/
def concatDF (l : List DF) : Except PdError DF :=
  match l with
  | [] => .error .noObjects
  | d :: _ => .ok { cols := d.cols, rows := (l.map DF.rows).flatten }

/-- `.map(lambda x: excel_round(x, p))` applied to the named columns of a
frame: cells of those columns are rounded (an exception propagates),
other cells are untouched. -/
def roundCell (cols : List String) (prec : Dec) (cv : String × PyVal) :
    Except PdError (String × PyVal) :=
  if cv.1 ∈ cols then
    match excel_round cv.2 prec with
    | .error e => .error e
    | .ok v => .ok (cv.1, v)
  else .ok cv

/-- Round the named columns of every row of a frame. -/
def roundDF (df : DF) (cols : List String) (prec : Dec) : Except PdError DF :=
  match df.rows.mapM (fun r => r.mapM (roundCell cols prec)) with
  | .error e => .error e
  | .ok rs => .ok { cols := df.cols, rows := rs }

/-- Processing of one year inside `get_data_for_all_years`: run the place
loop, flatten and concatenate, then round the numerator and population
columns with precision 1 (decimal exponent 0) and the index columns
with precision 0.001 (decimal exponent 3). -/
def processYear (data : DF) (places : List PlaceSpec)
    (aggs index_numerator index_names : List String) : Except PdError DF :=
  match yearLoop data aggs index_numerator index_names places [] with
  | .error e => .error e
  | .ok dict =>
    match concatDF (flattenDict dict) with
    | .error e => .error e
    | .ok large =>
      match roundDF large (index_numerator ++ ["GP pop"]) ⟨1, 0⟩ with
      | .error e => .error e
      | .ok r1 => roundDF r1 index_names ⟨1, 3⟩

/-- The year loop of `get_data_for_all_years`, with the in-place mutation
of `dataset_dict` made explicit: the first component is the state of the
caller's dictionary after the call (years processed before an exception
are already replaced), the second is the exception if one was raised. -/
def yearsAux (ss : List PlaceSpec) (aggs index_numerator index_names : List String) :
    List (String × DF) → List (String × DF) × Option PdError
  | [] => ([], none)
  | yd :: rest =>
    match processYear yd.2 ss aggs index_numerator index_names with
    | .error e => (yd :: rest, some e)
    | .ok out =>
      let r := yearsAux ss aggs index_numerator index_names rest
      ((yd.1, out) :: r.1, r.2)

/-- The post-call state of the `dataset_dict` argument of
`get_data_for_all_years`. -/
def get_data_for_all_years_post (d : List (String × DF)) (ss : List PlaceSpec)
    (aggs index_numerator index_names : List String) : List (String × DF) :=
  (yearsAux ss aggs index_numerator index_names d).1

/-- `get_data_for_all_years` from src/utils.py: its return value, which is
the mutated `dataset_dict` itself, or the exception raised. -/
def get_data_for_all_years (d : List (String × DF)) (ss : List PlaceSpec)
    (aggs index_numerator index_names : List String) : Except PdError (List (String × DF)) :=
  match yearsAux ss aggs index_numerator index_names d with
  | (post, none) => .ok post
  | (_, some e) => .error e

/-- The `aggregations` dictionary of src/ICB_Place_Based_Tool.py: every
tracked column maps to `"sum"`; listed in the dict's key order. -/
def theAggregations : List String :=
  ["GP pop", "Weighted G&A pop", "Weighted Community pop", "Weighted Mental Health pop",
   "Weighted Maternity pop", "Weighted Prescribing pop", "Overall Weighted pop",
   "Weighted Primary Care", "Weighted Primary Medical Care Need",
   "Weighted Health Inequalities pop"]

/-- The `index_numerator` list of src/ICB_Place_Based_Tool.py. -/
def theIndexNumerator : List String :=
  ["Weighted G&A pop", "Weighted Community pop", "Weighted Mental Health pop",
   "Weighted Maternity pop", "Weighted Prescribing pop", "Overall Weighted pop",
   "Weighted Primary Care", "Weighted Primary Medical Care Need",
   "Weighted Health Inequalities pop"]

/-- The `index_names` list of src/ICB_Place_Based_Tool.py. -/
def theIndexNames : List String :=
  ["G&A Index", "Community Index", "Mental Health Index", "Maternity Index",
   "Prescribing Index", "Overall Core Index", "Primary Medical Care Index",
   "Primary Medical Care Need Index", "Health Inequalities Index"]


/-- Unfolding `Row.get` over a cons. -/
theorem Row.get_cons (p : String × PyVal) (r : Row) (c : String) :
    Row.get (p :: r) c = if p.1 == c then p.2 else Row.get r c := by
  cases hb : p.1 == c <;> simp [Row.get, List.find?, hb]

/-- Unfolding `Row.hasCol` over a cons. -/
theorem Row.hasCol_cons (p : String × PyVal) (r : Row) (c : String) :
    Row.hasCol (p :: r) c = ((p.1 == c) || Row.hasCol r c) := by
  simp [Row.hasCol]

/-- A row without a column reads NaN there. -/
theorem Row.get_of_not_hasCol (r : Row) (c : String) (h : Row.hasCol r c = false) :
    Row.get r c = .nan := by
  induction r with
  | nil => simp [Row.get, List.find?]
  | cons hd tl ih =>
    rw [Row.hasCol_cons, Bool.or_eq_false_iff] at h
    rw [Row.get_cons, h.1, if_neg (by simp)]
    exact ih h.2

/-- Reading the updated column of a value-replacement map. -/
theorem Row.get_update_self (r : Row) (c : String) (v : PyVal) (h : Row.hasCol r c = true) :
    Row.get (r.map (fun cv => if cv.1 == c then (c, v) else cv)) c = v := by
  induction r with
  | nil => simp [Row.hasCol] at h
  | cons hd tl ih =>
    rw [Row.hasCol_cons] at h
    cases hb : hd.1 == c
    · rw [hb, Bool.false_or] at h
      rw [List.map_cons, if_neg (by simp [hb]), Row.get_cons, if_neg (by simp [hb])]
      exact ih h
    · rw [List.map_cons, if_pos (by simp [hb]), Row.get_cons]
      simp

/-- Reading another column of a value-replacement map. -/
theorem Row.get_update_other (r : Row) (c cc : String) (v : PyVal) (hne : cc ≠ c) :
    Row.get (r.map (fun cv => if cv.1 == c then (c, v) else cv)) cc = Row.get r cc := by
  induction r with
  | nil => simp
  | cons hd tl ih =>
    cases hb : hd.1 == c
    · rw [List.map_cons, if_neg (by simp [hb]), Row.get_cons, Row.get_cons]
      cases hb2 : hd.1 == cc
      · simpa using ih
      · simp
    · rw [List.map_cons, if_pos (by simp [hb]), Row.get_cons, Row.get_cons]
      have hb1 : hd.1 = c := by simpa using hb
      have hb2 : (hd.1 == cc) = false := by simp [hb1, Ne.symm hne]
      have hb3 : ((c, v).1 == cc) = false := by simp [Ne.symm hne]
      rw [hb2, hb3]
      simpa using ih

/-- Reading across an append when the left part lacks the column. -/
theorem Row.get_append_right (r rs : Row) (c : String) (h : Row.hasCol r c = false) :
    Row.get (r ++ rs) c = Row.get rs c := by
  induction r with
  | nil => simp
  | cons hd tl ih =>
    rw [Row.hasCol_cons, Bool.or_eq_false_iff] at h
    rw [List.cons_append, Row.get_cons, h.1, if_neg (by simp)]
    exact ih h.2

/-- Reading across an append when the left part has the column. -/
theorem Row.get_append_left (r rs : Row) (c : String) (h : Row.hasCol r c = true) :
    Row.get (r ++ rs) c = Row.get r c := by
  induction r with
  | nil => simp [Row.hasCol] at h
  | cons hd tl ih =>
    rw [Row.hasCol_cons] at h
    rw [List.cons_append, Row.get_cons, Row.get_cons]
    cases hb : hd.1 == c
    · rw [hb, Bool.false_or] at h
      rw [if_neg (by simp [hb]), if_neg (by simp [hb])]
      exact ih h
    · simp [hb]

/-- Reading the column just set by `setCol` gives the new value. -/
theorem Row.get_setCol_self (r : Row) (c : String) (v : PyVal) : Row.get (r.setCol c v) c = v := by
  unfold Row.setCol
  by_cases h : Row.hasCol r c = true
  · rw [if_pos h]
    exact Row.get_update_self r c v h
  · rw [if_neg h]
    rw [Row.get_append_right r _ c (by simpa using h), Row.get_cons]
    simp

/-- Reading a different column after `setCol` is unchanged. -/
theorem Row.get_setCol_other (r : Row) (c cc : String) (v : PyVal) (hne : cc ≠ c) :
    Row.get (r.setCol c v) cc = Row.get r cc := by
  unfold Row.setCol
  by_cases h : Row.hasCol r c = true
  · rw [if_pos h]
    exact Row.get_update_other r c cc v hne
  · rw [if_neg h]
    by_cases h2 : Row.hasCol r cc = true
    · exact Row.get_append_left r _ cc h2
    · rw [Row.get_append_right r _ cc (by simpa using h2), Row.get_cons]
      rw [if_neg (by simp [Ne.symm hne]), Row.get_of_not_hasCol r cc (by simpa using h2)]
      simp [Row.get, List.find?]

/-- Columns outside the assigned pairs are unchanged by `setCols`. -/
theorem Row.get_setCols_not_mem (r : Row) (pairs : List (String × PyVal)) (c : String)
    (h : c ∉ pairs.map Prod.fst) : Row.get (r.setCols pairs) c = Row.get r c := by
  induction pairs generalizing r with
  | nil => rfl
  | cons hd tl ih =>
    rw [List.map_cons, List.mem_cons] at h
    push_neg at h
    unfold Row.setCols at ih ⊢
    rw [List.foldl_cons, ih (r.setCol hd.1 hd.2) h.2]
    exact Row.get_setCol_other r hd.1 c hd.2 h.1

/-- With distinct assigned names, `setCols` stores each pair's value. -/
theorem Row.get_setCols_mem (r : Row) (pairs : List (String × PyVal)) (c : String) (v : PyVal)
    (hnd : (pairs.map Prod.fst).Nodup) (h : (c, v) ∈ pairs) :
    Row.get (r.setCols pairs) c = v := by
  induction pairs generalizing r with
  | nil => simp at h
  | cons hd tl ih =>
    rw [List.map_cons, List.nodup_cons] at hnd
    unfold Row.setCols at ih ⊢
    rw [List.foldl_cons]
    rcases List.mem_cons.mp h with heq | hmem
    · have hc1 : hd.1 = c := by rw [← heq]
      have hc2 : hd.2 = v := by rw [← heq]
      have hnotin : c ∉ tl.map Prod.fst := hc1 ▸ hnd.1
      have h2 := Row.get_setCols_not_mem (r.setCol hd.1 hd.2) tl c hnotin
      unfold Row.setCols at h2
      rw [h2, hc1, hc2]
      exact Row.get_setCol_self r c v
    · exact ih (r.setCol hd.1 hd.2) hnd.2 hmem

/-- Once every element of the list is already in the accumulator, the
first-occurrence deduplication fold is the identity. -/
theorem firstDedup_absorb {α : Type} [DecidableEq α] (l acc : List α)
    (h : ∀ x ∈ l, x ∈ acc) :
    l.foldl (fun acc a => if a ∈ acc then acc else acc ++ [a]) acc = acc := by
  induction l with
  | nil => rfl
  | cons hd tl ih =>
    rw [List.foldl_cons, if_pos (h hd (by simp))]
    exact ih (fun x hx => h x (by simp [hx]))

/-- A nonempty constant list deduplicates to the single value. -/
theorem firstDedup_const {α : Type} [DecidableEq α] (l : List α) (v : α)
    (hne : l ≠ []) (h : ∀ x ∈ l, x = v) : firstDedup l = [v] := by
  cases l with
  | nil => exact absurd rfl hne
  | cons hd tl =>
    have hhd : hd = v := h hd (by simp)
    unfold firstDedup
    rw [List.foldl_cons, if_neg (by simp), hhd]
    exact firstDedup_absorb tl [v] (fun x hx => by simp [h x (by simp [hx])])

/-- C5: for every (finite) numeric value and every precision at most 1,
`excel_round` performs exact decimal rounding to the precision's decimal
exponent with ties away from zero — never banker's rounding and never a
binary-float tie artifact, because the value is requantized from its
decimal representation.  In particular 2.005 at precision 0.01 rounds to
2.01 (see the witness). -/
theorem C5_excel_round_half_away (q : ℚ) (n : ℤ) (p : Dec) (hp : p.toRat ≤ 1) :
    excel_round (.fnum q) p = .ok (.fnum (specRoundHalfAway q p.e)) ∧
    excel_round (.int n) p = .ok (.fnum (specRoundHalfAway (n : ℚ) p.e)) := by
  have hnot : ¬ 1 < p.toRat := not_lt.mpr hp
  constructor
  · simp [excel_round, pyIsNumeric, hnot, quantizeHalfUp_eq_spec]
  · simp [excel_round, pyIsNumeric, hnot, quantizeHalfUp_eq_spec]

/-- Witness for C5 at the spec's example: precision 0.01 is at most 1 and
2.005 rounds to 2.01, which is not 2.00. -/
theorem C5_excel_round_half_away_witness :
    Dec.toRat ⟨1, 2⟩ ≤ 1 ∧
      excel_round (.fnum (2005 / 1000)) ⟨1, 2⟩ = .ok (.fnum (201 / 100)) ∧
      (201 / 100 : ℚ) ≠ 2 := by
  refine ⟨by norm_num [Dec.toRat], ?_, by norm_num⟩
  have h := (C5_excel_round_half_away (2005 / 1000) 0 ⟨1, 2⟩ (by norm_num [Dec.toRat])).1
  rw [h]
  have hval : specRoundHalfAway (2005 / 1000) (Dec.e ⟨1, 2⟩) = 201 / 100 := by
    norm_num [specRoundHalfAway, roundHalfAwayZero]
  rw [hval]

/-- C10 counterexample: `excel_round(True, 0.01)` does not return 1.0; the
`Decimal(str(True))` conversion raises InvalidOperation and the except
clause itself raises NameError (the name is not imported), so the call
raises instead of rounding the boolean. -/
theorem C10_counterexample :
    excel_round (.bool true) ⟨1, 2⟩ = .error .nameError ∧
      excel_round (.bool true) ⟨1, 2⟩ ≠ .ok (.fnum 1) := by
  have h : excel_round (.bool true) ⟨1, 2⟩ = .error .nameError := by
    have hnot : ¬ 1 < Dec.toRat ⟨1, 2⟩ := by norm_num [Dec.toRat]
    simp [excel_round, pyIsNumeric, hnot]
  refine ⟨h, ?_⟩
  rw [h]
  intro hc
  exact Except.noConfusion hc

/-- C10 amended: integer and finite float inputs do return a value of
Python float type (integers are converted rather than passed through),
but booleans are not rounded to 1.0/0.0: for precision at most 1 the
call raises NameError, because `Decimal(str(True))` raises
InvalidOperation and the handler references `InvalidOperation`, a name
src/utils.py never imports. -/
theorem C10_amended (n : ℤ) (q : ℚ) (b : Bool) (p : Dec) (hp : p.toRat ≤ 1) :
    (∃ x : ℚ, excel_round (.int n) p = .ok (.fnum x)) ∧
    (∃ x : ℚ, excel_round (.fnum q) p = .ok (.fnum x)) ∧
    excel_round (.bool b) p = .error .nameError := by
  have hnot : ¬ 1 < p.toRat := not_lt.mpr hp
  refine ⟨⟨quantizeHalfUp (n : ℚ) p.e, ?_⟩, ⟨quantizeHalfUp q p.e, ?_⟩, ?_⟩ <;>
    simp [excel_round, pyIsNumeric, hnot]

/-- Witness for C10 amended at concrete inputs. -/
theorem C10_amended_witness :
    Dec.toRat ⟨1, 2⟩ ≤ 1 ∧
      excel_round (.bool true) ⟨1, 2⟩ = .error .nameError ∧
      (∃ x : ℚ, excel_round (.int 5) ⟨1, 2⟩ = .ok (.fnum x)) := by
  have h := C10_amended 5 0 true ⟨1, 2⟩ (by norm_num [Dec.toRat])
  exact ⟨by norm_num [Dec.toRat], h.2.2, h.1⟩

/-- C7 counterexample: a frame lacking the group column is not left
unchanged by `aggregate` — the call inserts the column into the caller's
frame (the post-call state of the argument differs from the input). -/
theorem C7_counterexample :
    (aggregate ⟨["GP pop"], [[("GP pop", .fnum 1)]]⟩ "P" "Place Name" ["GP pop"]).1 ≠
      ⟨["GP pop"], [[("GP pop", .fnum 1)]]⟩ := by
  decide

/-- C7 amended: `aggregate` leaves the caller's frame unchanged exactly
when the group column is already present; when it is absent, the input
frame is mutated in place by inserting the group column at position 0,
populated with the group name, and the first returned value is this
mutated frame (not the original). -/
theorem C7_amended (df : DF) (name onCol : String) (aggs : List String) :
    (onCol ∈ df.cols → (aggregate df name onCol aggs).1 = df) ∧
    (onCol ∉ df.cols →
      (aggregate df name onCol aggs).1 =
          { cols := onCol :: df.cols,
            rows := df.rows.map (fun r => (onCol, PyVal.str name) :: r) } ∧
        (aggregate df name onCol aggs).1 ≠ df) := by
  constructor
  · intro h
    simp [aggregate, h]
  · intro h
    refine ⟨by simp [aggregate, h], ?_⟩
    intro heq
    have hcols := congrArg DF.cols heq
    simp only [aggregate, if_neg h] at hcols
    exact absurd (congrArg List.length hcols) (by simp)

/-- Helper: when every input row shares one value in the group column, or
the column is absent and is synthesized uniformly, `aggregate` groups to
exactly one row of per-column sums. -/
theorem aggregate_single_row (df : DF) (name onCol : String) (aggs : List String) (v : PyVal)
    (hne : df.rows ≠ [])
    (hagg : onCol ∉ aggs)
    (hcase : (onCol ∈ df.cols ∧ ∀ r ∈ df.rows, Row.get r onCol = v) ∨ onCol ∉ df.cols) :
    (aggregate df name onCol aggs).2 =
      { cols := aggs,
        rows := [aggs.map (fun c => (c, groupSum (df.rows.map (fun r => Row.get r c))))] } := by
  rcases hcase with ⟨hmem, hv⟩ | hnotmem
  · have hkeys : firstDedup (df.rows.map (fun r => Row.get r onCol)) = [v] := by
      apply firstDedup_const
      · simpa using hne
      · intro x hx
        rcases List.mem_map.mp hx with ⟨r, hr, hrx⟩
        rw [← hrx]
        exact hv r hr
    have hfilter : df.rows.filter (fun r => Row.get r onCol == v) = df.rows := by
      apply List.filter_eq_self.mpr
      intro r hr
      simp [hv r hr]
    simp only [aggregate, if_pos hmem, hkeys, List.map_cons, List.map_nil, hfilter]
  · have hget : ∀ r : Row, Row.get ((onCol, PyVal.str name) :: r) onCol = PyVal.str name := by
      intro r
      simp [Row.get_cons]
    have hkeys : firstDedup ((df.rows.map (fun r => (onCol, PyVal.str name) :: r)).map
        (fun r => Row.get r onCol)) = [PyVal.str name] := by
      apply firstDedup_const
      · simpa using hne
      · intro x hx
        rcases List.mem_map.mp hx with ⟨r, hr, hrx⟩
        rcases List.mem_map.mp hr with ⟨r0, hr0m, hr0⟩
        rw [← hrx, ← hr0]
        exact hget r0
    have hfilter : (df.rows.map (fun r => (onCol, PyVal.str name) :: r)).filter
        (fun r => Row.get r onCol == PyVal.str name) =
        df.rows.map (fun r => (onCol, PyVal.str name) :: r) := by
      apply List.filter_eq_self.mpr
      intro r hr
      rcases List.mem_map.mp hr with ⟨r0, hr0m, hr0⟩
      rw [← hr0]
      simp [hget r0]
    simp only [aggregate, if_neg hnotmem, hkeys, List.map_cons, List.map_nil, hfilter]
    refine congrArg (fun rs => DF.mk aggs [rs]) ?_
    apply List.map_congr_left
    intro c hc
    have hcne : (onCol == c) = false := by
      simp only [beq_eq_false_iff_ne, ne_eq]
      intro h
      exact hagg (h ▸ hc)
    refine congrArg (fun x => (c, groupSum x)) ?_
    rw [List.map_map]
    apply List.map_congr_left
    intro r hr
    simp [Row.get_cons, hcne]

/-- C6: for every input table in which all rows share one value in the
group column, `aggregate` returns a grouped-totals table of exactly one
row containing the per-column aggregations (sums) of the aggregation
spec; when the group column is absent from the schema it is synthesized
and populated uniformly with the group name, after which the same
single-row guarantee holds. -/
theorem C6_aggregate_single_group (df : DF) (name onCol : String) (aggs : List String) (v : PyVal)
    (hne : df.rows ≠ [])
    (hagg : onCol ∉ aggs)
    (hcase : (onCol ∈ df.cols ∧ ∀ r ∈ df.rows, Row.get r onCol = v) ∨ onCol ∉ df.cols) :
    (aggregate df name onCol aggs).2 =
      { cols := aggs,
        rows := [aggs.map (fun c => (c, groupSum (df.rows.map (fun r => Row.get r c))))] } :=
  aggregate_single_row df name onCol aggs v hne hagg hcase

/-- Witness for C6: two rows, no group column present, one aggregated
column; the grouped table is one row with the sum 1 + 2 = 3. -/
theorem C6_aggregate_single_group_witness :
    (aggregate ⟨["GP pop"], [[("GP pop", PyVal.fnum 1)], [("GP pop", PyVal.fnum 2)]]⟩
        "P" "Place Name" ["GP pop"]).2 =
      { cols := ["GP pop"], rows := [[("GP pop", PyVal.fnum 3)]] } := by
  have h := C6_aggregate_single_group
    ⟨["GP pop"], [[("GP pop", PyVal.fnum 1)], [("GP pop", PyVal.fnum 2)]]⟩
    "P" "Place Name" ["GP pop"] PyVal.nan (by simp) (by simp) (Or.inr (by simp))
  rw [h]
  norm_num [groupSum, padd, Row.get, List.find?]

/-- Appending fresh distinct column names with `colsUnion` is a plain
append. -/
theorem colsUnion_fresh (cs names : List String) (hnd : names.Nodup)
    (hfr : ∀ nm ∈ names, nm ∉ cs) : colsUnion cs names = cs ++ names := by
  induction names generalizing cs with
  | nil => simp [colsUnion]
  | cons hd tl ih =>
    rw [List.nodup_cons] at hnd
    unfold colsUnion at ih ⊢
    rw [List.foldl_cons, if_neg (hfr hd (by simp))]
    rw [ih (cs ++ [hd]) hnd.2]
    · simp
    · intro nm hnm
      rw [List.mem_append]
      push_neg
      refine ⟨hfr nm (by simp [hnm]), ?_⟩
      simp only [List.mem_singleton]
      intro h
      exact hnd.1 (h ▸ hnm)

/-- Reading back all the columns just assigned by `setCols` returns the
assigned values. -/
theorem map_get_setCols (r : Row) (names : List String) (vals : List PyVal)
    (hnd : names.Nodup) (hlen : names.length = vals.length) :
    names.map (fun nm => Row.get (r.setCols (names.zip vals)) nm) = vals := by
  apply List.ext_getElem
  · simp [hlen]
  · intro i h1 h2
    have hin : i < names.length := by simpa using h1
    have hiz : i < (names.zip vals).length := by
      rw [List.length_zip]
      omega
    rw [List.getElem_map]
    apply Row.get_setCols_mem
    · rw [List.map_fst_zip names vals (by omega)]
      exact hnd
    · have hp : (names.zip vals)[i] = (names[i], vals[i]) := List.getElem_zip
      rw [← hp]
      exact List.getElem_mem hiz

/-- The single grouped row of per-column sums over a set of rows. -/
def aggRowOf (aggs : List String) (rows : List Row) : Row :=
  aggs.map (fun c => (c, groupSum (rows.map (fun r => Row.get r c))))

/-- The region aggregate row for one ICB name. -/
def regionRow (data : DF) (aggs : List String) (rn : String) : Row :=
  aggRowOf aggs (data.rows.filter (icbMatch rn))

/-- The place aggregate row for one place definition. -/
def placeBaseRow (data : DF) (aggs : List String) (p : PlaceSpec) : Row :=
  aggRowOf aggs (data.rows.filter (gpMatch p.gps))

/-- Grouping an empty (filtered) frame yields no grouped rows. -/
theorem aggregate_empty_rows (df : DF) (name onCol : String) (aggs : List String)
    (h : df.rows = []) : (aggregate df name onCol aggs).2 = ⟨aggs, []⟩ := by
  unfold aggregate
  by_cases hmem : onCol ∈ df.cols <;> simp [hmem, h, firstDedup]

/-- Evaluation of the ICB aggregation: with at least one matching row, the
grouped frame is the single region row (the `ICB name` values of the
filtered rows are uniformly the queried name, whether the column was
present or synthesized). -/
theorem igFor_eq (data : DF) (aggs : List String) (rn : String)
    (hagg : "ICB name" ∉ aggs)
    (hne : data.rows.filter (icbMatch rn) ≠ []) :
    igFor data aggs rn = ⟨aggs, [regionRow data aggs rn]⟩ := by
  unfold igFor regionRow aggRowOf
  by_cases hmem : "ICB name" ∈ (data.query (icbMatch rn)).cols
  · exact aggregate_single_row _ _ _ _ (PyVal.str rn) (by simpa [DF.query] using hne) hagg
      (Or.inl ⟨hmem, by
        intro r hr
        simp only [DF.query] at hr
        have := (List.mem_filter.mp hr).2
        simpa [icbMatch] using this⟩)
  · exact aggregate_single_row _ _ _ _ PyVal.nan (by simpa [DF.query] using hne) hagg
      (Or.inr hmem)

/-- Evaluation of the place aggregation: with at least one matching row
and no pre-existing `Place Name` column, the grouped frame is the single
place row. -/
theorem pgFor_eq (data : DF) (aggs : List String) (p : PlaceSpec)
    (hagg : "Place Name" ∉ aggs)
    (hcols : "Place Name" ∉ data.cols)
    (hne : data.rows.filter (gpMatch p.gps) ≠ []) :
    pgFor data aggs p = ⟨aggs, [placeBaseRow data aggs p]⟩ := by
  unfold pgFor placeBaseRow aggRowOf
  exact aggregate_single_row _ _ _ _ PyVal.nan (by simpa [DF.query] using hne) hagg
    (Or.inr (by simpa [DF.query] using hcols))

/-- `get_index` against a one-row ICB frame always succeeds: the single
region row is broadcast as the denominator of every place row. -/
theorem get_index_single_icb (pl : DF) (icols : List String) (ri : Row)
    (names nums : List String)
    (hnd : names.Nodup) (hlen : names.length = nums.length) :
    get_index pl ⟨icols, [ri]⟩ names nums =
      .ok (⟨colsUnion pl.cols names,
            pl.rows.map (fun r => r.setCols (names.zip
              (List.zipWith pdiv (indexQuotients nums r) (indexQuotients nums ri))))⟩,
           ⟨colsUnion icols names, [ri.setCols (names.zip (indexQuotients nums ri))]⟩) := by
  have hlenq : names.length = (indexQuotients nums ri).length := by
    simp [indexQuotients, hlen]
  have hvals : names.map (fun nm =>
      Row.get (ri.setCols (names.zip (indexQuotients nums ri))) nm) = indexQuotients nums ri :=
    map_get_setCols ri names (indexQuotients nums ri) hnd hlenq
  unfold get_index
  simp only [List.map_cons, List.map_nil, hvals, List.length_cons, List.length_nil,
    List.length_map, zero_add]
  by_cases hone : pl.rows.length = 1
  · rw [if_pos (by rw [hone])]
    rcases List.length_eq_one.mp hone with ⟨r0, hr0⟩
    rw [hr0]
    simp
  · rw [if_neg (by omega), if_pos trivial]
    refine congrArg (fun rs => (Except.ok
      (DF.mk (colsUnion pl.cols names) rs,
       DF.mk (colsUnion icols names) [ri.setCols (names.zip (indexQuotients nums ri))]) :
      Except PdError (DF × DF))) ?_
    rw [List.map_map, List.zipWith_map_right, List.zipWith_same]
    simp

/-- Positional read-back of one assigned column. -/
theorem get_setCols_zip_getElem (r : Row) (names : List String) (vals : List PyVal)
    (hnd : names.Nodup) (hlen : names.length = vals.length) (j : ℕ) (hj : j < names.length) :
    Row.get (r.setCols (names.zip vals)) names[j] = vals[j] := by
  apply Row.get_setCols_mem
  · rw [List.map_fst_zip names vals (by omega)]
    exact hnd
  · have hjz : j < (names.zip vals).length := by
      rw [List.length_zip]
      omega
    have hp : (names.zip vals)[j] = (names[j], vals[j]) := List.getElem_zip
    rw [← hp]
    exact List.getElem_mem hjz

/-- C1: for every place-totals table and every one-row region-totals
table, with positionally paired index names and numerator columns that
are fresh for both schemas, `get_index` succeeds and writes the region
index of each measure as region_numerator / region_population — the
region's raw per-capita ratio, never divided by anything else — and the
place index as (place_numerator / place_population) / region_index;
both tables gain exactly the new index columns and are returned. -/
theorem C1_get_index_formula (pl : DF) (icols : List String) (ri : Row)
    (names nums : List String)
    (hnd : names.Nodup) (hlen : names.length = nums.length)
    (hfr1 : ∀ nm ∈ names, nm ∉ icols) (hfr2 : ∀ nm ∈ names, nm ∉ pl.cols) :
    ∃ pl2 ic2, get_index pl ⟨icols, [ri]⟩ names nums = .ok (pl2, ic2) ∧
      ic2.cols = icols ++ names ∧ pl2.cols = pl.cols ++ names ∧
      (∃ ri2, ic2.rows = [ri2] ∧ ∀ j (hj : j < names.length),
        Row.get ri2 names[j] = pdiv (Row.get ri nums[j]) (Row.get ri "GP pop")) ∧
      pl2.rows.length = pl.rows.length ∧
      (∀ i (hi : i < pl.rows.length) j (hj : j < names.length) (hi2 : i < pl2.rows.length),
        Row.get pl2.rows[i] names[j] =
          pdiv (pdiv (Row.get pl.rows[i] nums[j]) (Row.get pl.rows[i] "GP pop"))
               (pdiv (Row.get ri nums[j]) (Row.get ri "GP pop"))) := by
  rw [get_index_single_icb pl icols ri names nums hnd hlen]
  have hlq : ∀ r : Row, (indexQuotients nums r).length = names.length := by
    intro r
    simp [indexQuotients, hlen]
  refine ⟨_, _, rfl, colsUnion_fresh icols names hnd hfr1,
    colsUnion_fresh pl.cols names hnd hfr2, ⟨_, rfl, ?_⟩, by simp, ?_⟩
  · intro j hj
    rw [get_setCols_zip_getElem ri names (indexQuotients nums ri) hnd ((hlq ri).symm) j hj]
    simp only [indexQuotients]
    rw [List.getElem_map]
  · intro i hi j hj hi2
    have hrow : (pl.rows.map (fun r => r.setCols (names.zip
        (List.zipWith pdiv (indexQuotients nums r) (indexQuotients nums ri)))))[i]
        = (pl.rows[i]).setCols (names.zip
        (List.zipWith pdiv (indexQuotients nums pl.rows[i]) (indexQuotients nums ri))) := by
      rw [List.getElem_map]
    rw [hrow]
    have hlz : names.length = (List.zipWith pdiv (indexQuotients nums pl.rows[i])
        (indexQuotients nums ri)).length := by
      rw [List.length_zipWith, hlq, hlq]
      simp
    rw [get_setCols_zip_getElem (pl.rows[i]) names _ hnd hlz j hj]
    have hjz : j < (List.zipWith pdiv (indexQuotients nums pl.rows[i])
        (indexQuotients nums ri)).length := by omega
    have hb1 : j < (indexQuotients nums pl.rows[i]).length := by
      rw [hlq]
      omega
    have hb2 : j < (indexQuotients nums ri).length := by
      rw [hlq]
      omega
    have hz : (List.zipWith pdiv (indexQuotients nums pl.rows[i]) (indexQuotients nums ri))[j]
        = pdiv (indexQuotients nums pl.rows[i])[j] (indexQuotients nums ri)[j] :=
      List.getElem_zipWith
    rw [hz]
    simp only [indexQuotients]
    rw [List.getElem_map, List.getElem_map]

/-- Witness for C1: a one-row place table and a one-row region table with
one tracked measure. -/
theorem C1_get_index_formula_witness :
    ∃ pl2 ic2, get_index ⟨["GP pop", "W"], [[("GP pop", PyVal.fnum 100), ("W", PyVal.fnum 110)]]⟩
        ⟨["GP pop", "W"], [[("GP pop", PyVal.fnum 300), ("W", PyVal.fnum 300)]]⟩ ["I"] ["W"] =
        .ok (pl2, ic2) ∧
      ic2.cols = ["GP pop", "W"] ++ ["I"] ∧ pl2.cols = ["GP pop", "W"] ++ ["I"] ∧
      (∃ ri2, ic2.rows = [ri2] ∧ ∀ j (hj : j < (["I"] : List String).length),
        Row.get ri2 (["I"] : List String)[j] =
          pdiv (Row.get [("GP pop", PyVal.fnum 300), ("W", PyVal.fnum 300)] (["W"] : List String)[j])
               (Row.get [("GP pop", PyVal.fnum 300), ("W", PyVal.fnum 300)] "GP pop")) ∧
      pl2.rows.length = 1 ∧
      (∀ i (hi : i < ([[("GP pop", PyVal.fnum 100), ("W", PyVal.fnum 110)]] : List Row).length)
          j (hj : j < (["I"] : List String).length) (hi2 : i < pl2.rows.length),
        Row.get pl2.rows[i] (["I"] : List String)[j] =
          pdiv (pdiv (Row.get ([[("GP pop", PyVal.fnum 100), ("W", PyVal.fnum 110)]] :
                  List Row)[i] (["W"] : List String)[j])
                (Row.get ([[("GP pop", PyVal.fnum 100), ("W", PyVal.fnum 110)]] : List Row)[i]
                  "GP pop"))
               (pdiv (Row.get [("GP pop", PyVal.fnum 300), ("W", PyVal.fnum 300)]
                  (["W"] : List String)[j])
                (Row.get [("GP pop", PyVal.fnum 300), ("W", PyVal.fnum 300)] "GP pop"))) :=
  C1_get_index_formula ⟨["GP pop", "W"], [[("GP pop", PyVal.fnum 100), ("W", PyVal.fnum 110)]]⟩
    ["GP pop", "W"] [("GP pop", PyVal.fnum 300), ("W", PyVal.fnum 300)] ["I"] ["W"]
    (by decide) (by decide) (by decide) (by decide)

/-- The region row with its index columns written: each index is the raw
per-capita ratio of the region. -/
def regionIndexed (data : DF) (aggs nums names : List String) (rn : String) : Row :=
  (regionRow data aggs rn).setCols (names.zip (indexQuotients nums (regionRow data aggs rn)))

/-- The place row with its index columns written: each place ratio divided
by the owning region's ratio. -/
def placeIndexed (data : DF) (aggs nums names : List String) (p : PlaceSpec) : Row :=
  (placeBaseRow data aggs p).setCols (names.zip
    (List.zipWith pdiv (indexQuotients nums (placeBaseRow data aggs p))
      (indexQuotients nums (regionRow data aggs p.icb))))

/-- The tagged one-row ICB frame produced by one loop iteration. -/
def icbFrame (data : DF) (aggs nums names : List String) (rn : String) : DF :=
  tagDF rn ⟨colsUnion aggs names, [regionIndexed data aggs nums names rn]⟩

/-- The tagged one-row place frame produced by one loop iteration. -/
def placeFrame (data : DF) (aggs nums names : List String) (p : PlaceSpec) : DF :=
  tagDF p.name ⟨colsUnion aggs names, [placeIndexed data aggs nums names p]⟩

/-- Symbolic evaluation of one loop iteration when both filters match at
least one row: the iteration succeeds and produces the tagged single-row
region and place frames. -/
theorem computePlace_ok (data : DF) (p : PlaceSpec) (aggs nums names : List String)
    (hnd : names.Nodup) (hlen : names.length = nums.length)
    (haggI : "ICB name" ∉ aggs) (haggP : "Place Name" ∉ aggs)
    (hcols : "Place Name" ∉ data.cols)
    (hreg : data.rows.filter (icbMatch p.icb) ≠ [])
    (hgp : data.rows.filter (gpMatch p.gps) ≠ []) :
    computePlace data p aggs nums names =
      .ok (icbFrame data aggs nums names p.icb, placeFrame data aggs nums names p) := by
  unfold computePlace
  rw [igFor_eq data aggs p.icb haggI hreg, pgFor_eq data aggs p haggP hcols hgp]
  rw [get_index_single_icb ⟨aggs, [placeBaseRow data aggs p]⟩ aggs (regionRow data aggs p.icb)
    names nums hnd hlen]
  simp only [List.map_cons, List.map_nil]
  rfl

/-- Membership is preserved by the deduplication fold. -/
theorem mem_foldl_dedup {α : Type} [DecidableEq α] (l acc : List α) (a : α)
    (h : a ∈ acc ∨ a ∈ l) :
    a ∈ l.foldl (fun acc x => if x ∈ acc then acc else acc ++ [x]) acc := by
  induction l generalizing acc with
  | nil => simpa using h
  | cons hd tl ih =>
    rw [List.foldl_cons]
    rcases h with ha | hl
    · apply ih
      left
      by_cases hmem : hd ∈ acc <;> simp [hmem, ha]
    · rcases List.mem_cons.mp hl with heq | htl
      · apply ih
        left
        subst heq
        by_cases hmem : a ∈ acc <;> simp [hmem]
      · exact ih _ (Or.inr htl)

/-- Deduplicating a nonempty list is nonempty. -/
theorem firstDedup_ne_nil {α : Type} [DecidableEq α] (l : List α) (h : l ≠ []) :
    firstDedup l ≠ [] := by
  cases l with
  | nil => exact absurd rfl h
  | cons hd tl =>
    have hmem : hd ∈ firstDedup (hd :: tl) := mem_foldl_dedup (hd :: tl) [] hd (Or.inr (by simp))
    intro hc
    rw [hc] at hmem
    simp at hmem

/-- Grouping a nonempty frame yields at least one grouped row. -/
theorem aggregate_rows_ne_nil (df : DF) (name onCol : String) (aggs : List String)
    (h : df.rows ≠ []) : (aggregate df name onCol aggs).2.rows ≠ [] := by
  have h2 : ∀ rows2 : List Row, rows2 ≠ [] →
      firstDedup (rows2.map (fun r => Row.get r onCol)) ≠ [] := by
    intro rows2 hne
    apply firstDedup_ne_nil
    simpa using hne
  unfold aggregate
  by_cases hmem : onCol ∈ df.cols
  · simp only [if_pos hmem]
    simpa using h2 df.rows h
  · simp only [if_neg hmem]
    simpa using h2 (df.rows.map (fun r => (onCol, PyVal.str name) :: r)) (by simpa using h)

/-- `get_index` with an empty ICB frame and a nonempty place frame hits
the pandas shape mismatch: neither the equal-shape path nor the one-row
broadcast applies, and ValueError is raised. -/
theorem get_index_empty_icb (pl : DF) (icols : List String) (names nums : List String)
    (hne : pl.rows ≠ []) :
    get_index pl ⟨icols, []⟩ names nums = .error .unableToCoerce := by
  unfold get_index
  have h0 : pl.rows.length ≠ 0 := by simpa [List.length_eq_zero] using hne
  simp only [List.map_nil, List.length_nil, List.length_map]
  rw [if_neg (by omega), if_neg (by omega)]

/-- `get_index` on two empty frames succeeds with two empty results (the
shapes agree, both being zero-row). -/
theorem get_index_empty_empty (pcols icols : List String) (names nums : List String) :
    get_index ⟨pcols, []⟩ ⟨icols, []⟩ names nums =
      .ok (⟨colsUnion pcols names, []⟩, ⟨colsUnion icols names, []⟩) := by
  unfold get_index
  simp

/-- A loop failure makes the year processing fail with the same error. -/
theorem processYear_error_of_loop (data : DF) (places : List PlaceSpec)
    (aggs nums names : List String) (e : PdError)
    (h : yearLoop data aggs nums names places [] = .error e) :
    processYear data places aggs nums names = .error e := by
  unfold processYear
  rw [h]

/-- A concrete two-practice dataset (region R1) used for concrete runs. -/
def exData : DF :=
  ⟨["practice_display", "ICB name", "GP pop", "W"],
   [[("practice_display", .str "A"), ("ICB name", .str "R1"),
     ("GP pop", .fnum 100), ("W", .fnum 110)],
    [("practice_display", .str "B"), ("ICB name", .str "R1"),
     ("GP pop", .fnum 200), ("W", .fnum 190)]]⟩

/-- A place whose member practice exists but whose owning region matches
no rows of `exData`. -/
def exPX : PlaceSpec := ⟨"PX", ["A"], "R2"⟩

/-- A place whose member practices and owning region both match no rows
of `exData`. -/
def exPE : PlaceSpec := ⟨"PE", ["Z"], "R2"⟩

/-- C3 counterexample: a place referencing a region absent from the
year's data makes the orchestrator raise (the pandas shape-mismatch
ValueError inside `get_index`), rather than producing NaN index values
that propagate to the output. -/
theorem C3_counterexample :
    get_data_for_all_years [("2024_25", exData)] [exPX] ["GP pop", "W"] ["W"] ["I"] =
      .error .unableToCoerce := by
  have hig : igFor exData ["GP pop", "W"] "R2" = ⟨["GP pop", "W"], []⟩ :=
    aggregate_empty_rows (exData.query (icbMatch "R2")) "R2" "ICB name" ["GP pop", "W"] (by decide)
  have hpg : pgFor exData ["GP pop", "W"] exPX = ⟨["GP pop", "W"], [placeBaseRow exData ["GP pop", "W"] exPX]⟩ :=
    pgFor_eq exData ["GP pop", "W"] exPX (by decide) (by decide) (by decide)
  have hcp : computePlace exData exPX ["GP pop", "W"] ["W"] ["I"] = .error .unableToCoerce := by
    unfold computePlace
    rw [show exPX.icb = "R2" from rfl, hig, hpg]
    rw [get_index_empty_icb ⟨["GP pop", "W"], [placeBaseRow exData ["GP pop", "W"] exPX]⟩
      ["GP pop", "W"] ["I"] ["W"] (by simp)]
  have hyl : yearLoop exData ["GP pop", "W"] ["W"] ["I"] [exPX] [] = .error .unableToCoerce := by
    unfold yearLoop
    rw [hcp]
  have hpe : processYear exData [exPX] ["GP pop", "W"] ["W"] ["I"] = .error .unableToCoerce :=
    processYear_error_of_loop exData [exPX] ["GP pop", "W"] ["W"] ["I"] .unableToCoerce hyl
  unfold get_data_for_all_years yearsAux
  rw [hpe]

/-- C3 amended: a place whose owning region matches no rows of the year's
data raises the shape-mismatch ValueError inside `get_index` whenever
the place's own practices do match rows; only when the place's practices
also match nothing does the iteration return without raising, and then
both the region and the place aggregate are empty frames contributing
zero rows (not NaN rows) to the year's output. -/
theorem C3_amended (data : DF) (p : PlaceSpec) (aggs nums names : List String)
    (hicb : data.rows.filter (icbMatch p.icb) = []) :
    (data.rows.filter (gpMatch p.gps) ≠ [] →
      computePlace data p aggs nums names = .error .unableToCoerce) ∧
    (data.rows.filter (gpMatch p.gps) = [] →
      ∃ icbT placeT, computePlace data p aggs nums names = .ok (icbT, placeT) ∧
        icbT.rows = [] ∧ placeT.rows = []) := by
  have hig : igFor data aggs p.icb = ⟨aggs, []⟩ :=
    aggregate_empty_rows (data.query (icbMatch p.icb)) p.icb "ICB name" aggs (by
      simpa [DF.query] using hicb)
  constructor
  · intro hgp
    unfold computePlace
    rw [hig]
    have hpgne : (pgFor data aggs p).rows ≠ [] := by
      apply aggregate_rows_ne_nil
      simpa [DF.query] using hgp
    rw [get_index_empty_icb (pgFor data aggs p) aggs names nums hpgne]
  · intro hgp
    have hpg : pgFor data aggs p = ⟨aggs, []⟩ :=
      aggregate_empty_rows (data.query (gpMatch p.gps)) p.name "Place Name" aggs (by
        simpa [DF.query] using hgp)
    refine ⟨tagDF p.icb ⟨colsUnion aggs names, []⟩, tagDF p.name ⟨colsUnion aggs names, []⟩,
      ?_, rfl, rfl⟩
    unfold computePlace
    rw [hig, hpg, get_index_empty_empty aggs aggs names nums]

/-- Witness for C3 amended: a place with an absent region and absent
practices returns empty frames without raising. -/
theorem C3_amended_witness :
    exData.rows.filter (icbMatch exPE.icb) = [] ∧
      (∃ icbT placeT, computePlace exData exPE ["GP pop", "W"] ["W"] ["I"] = .ok (icbT, placeT) ∧
        icbT.rows = [] ∧ placeT.rows = []) := by
  have h := C3_amended exData exPE ["GP pop", "W"] ["W"] ["I"] (by decide)
  exact ⟨by decide, h.2 (by decide)⟩

/-- The deduplication fold keeps the accumulator duplicate-free. -/
theorem nodup_foldl_dedup {α : Type} [DecidableEq α] (l acc : List α) (h : acc.Nodup) :
    (l.foldl (fun acc x => if x ∈ acc then acc else acc ++ [x]) acc).Nodup := by
  induction l generalizing acc with
  | nil => exact h
  | cons hd tl ih =>
    rw [List.foldl_cons]
    by_cases hmem : hd ∈ acc
    · rw [if_pos hmem]
      exact ih acc h
    · rw [if_neg hmem]
      apply ih
      rw [← List.concat_eq_append]
      exact h.concat hmem

/-- First-occurrence deduplication never repeats an element. -/
theorem nodup_firstDedup {α : Type} [DecidableEq α] (l : List α) : (firstDedup l).Nodup :=
  nodup_foldl_dedup l [] (by simp)

/-- Deduplicating one appended element either changes nothing or appends
it at the end. -/
theorem firstDedup_append_singleton {α : Type} [DecidableEq α] (l : List α) (a : α) :
    firstDedup (l ++ [a]) =
      if a ∈ firstDedup l then firstDedup l else firstDedup l ++ [a] := by
  unfold firstDedup
  rw [List.foldl_append]
  rfl

/-- Inserting a fresh key with `dictAdd` appends the new entry. -/
theorem dictAdd_not_mem (m : List (String × List DF)) (k : String) (i pl : DF)
    (h : k ∉ m.map Prod.fst) : dictAdd m k i pl = m ++ [(k, [i, pl])] := by
  induction m with
  | nil => rfl
  | cons hd tl ih =>
    rw [List.map_cons, List.mem_cons] at h
    push_neg at h
    unfold dictAdd
    rw [if_neg (fun hc => h.1 hc.symm)]
    rw [List.cons_append]
    exact congrArg (hd :: ·) (ih h.2)

/-- Inserting an existing key of a keyed map with `dictAdd` appends the
place frame to that key's list, in place. -/
theorem dictAdd_mem_map (rs : List String) (H : String → List DF) (k : String) (i pl : DF)
    (hnd : rs.Nodup) (h : k ∈ rs) :
    dictAdd (rs.map (fun r => (r, H r))) k i pl =
      rs.map (fun r => (r, if r = k then H r ++ [pl] else H r)) := by
  induction rs with
  | nil => simp at h
  | cons hd tl ih =>
    rw [List.nodup_cons] at hnd
    rcases List.mem_cons.mp h with heq | htl
    · subst heq
      simp only [List.map_cons]
      unfold dictAdd
      rw [if_pos rfl]
      refine congrArg₂ List.cons (by simp) ?_
      apply List.map_congr_left
      intro r hr
      rw [if_neg (fun hc : r = k => hnd.1 (hc ▸ hr))]
    · simp only [List.map_cons]
      unfold dictAdd
      have hne : hd ≠ k := fun hc => hnd.1 (hc ▸ htl)
      rw [if_neg hne, if_neg hne]
      exact congrArg ((hd, H hd) :: ·) (ih hnd.2 htl)

/-- The `dict_obj` loop, abstracted over the frames computed per place. -/
def buildDict (F : String → DF) (G : PlaceSpec → DF) (places : List PlaceSpec)
    (acc : List (String × List DF)) : List (String × List DF) :=
  places.foldl (fun acc p => dictAdd acc p.icb (F p.icb) (G p)) acc

/-- The central grouping property of `dict_obj`: after the whole place
loop, the dictionary holds one entry per distinct region in order of
first encounter, whose value is the region frame of the first place
encountered for that region followed by the place frames of every place
of that region in place-definition order. -/
theorem buildDict_eq_group (F : String → DF) (G : PlaceSpec → DF) (places : List PlaceSpec) :
    buildDict F G places [] =
      (firstDedup (places.map PlaceSpec.icb)).map (fun r =>
        (r, F r :: (places.filter (fun p => p.icb = r)).map G)) := by
  induction places using List.reverseRecOn with
  | nil => rfl
  | append_singleton l p ih =>
    have hstep : buildDict F G (l ++ [p]) [] =
        dictAdd (buildDict F G l []) p.icb (F p.icb) (G p) := by
      unfold buildDict
      rw [List.foldl_append, List.foldl_cons, List.foldl_nil]
    rw [hstep, ih, List.map_append]
    simp only [List.map_cons, List.map_nil]
    rw [firstDedup_append_singleton]
    by_cases hmem : p.icb ∈ firstDedup (l.map PlaceSpec.icb)
    · rw [if_pos hmem]
      rw [dictAdd_mem_map _ _ _ _ _ (nodup_firstDedup _) hmem]
      apply List.map_congr_left
      intro r hr
      by_cases hrk : r = p.icb
      · subst hrk
        rw [if_pos rfl, List.filter_append]
        simp
      · rw [if_neg hrk, List.filter_append]
        have hne : ¬ (p.icb = r) := fun hc => hrk hc.symm
        simp [hne]
    · rw [if_neg hmem]
      rw [dictAdd_not_mem _ _ _ _ (by
        rw [List.map_map]
        simpa using hmem)]
      rw [List.map_append]
      congr 1
      · apply List.map_congr_left
        intro r hr
        rw [List.filter_append]
        have hne : ¬ (p.icb = r) := fun hc => hmem (hc ▸ hr)
        simp [hne]
      · have hfl : l.filter (fun q => q.icb = p.icb) = [] := by
          rw [List.filter_eq_nil_iff]
          intro q hq hc
          apply hmem
          apply mem_foldl_dedup
          right
          rw [List.mem_map]
          exact ⟨q, hq, by simpa using hc⟩
        simp [hfl]

/-- When every place's region and practice filters are nonempty, the place
loop succeeds and builds exactly the grouped dictionary. -/
theorem yearLoop_eq_buildDict (data : DF) (aggs nums names : List String)
    (places : List PlaceSpec) (acc : List (String × List DF))
    (hnd : names.Nodup) (hlen : names.length = nums.length)
    (haggI : "ICB name" ∉ aggs) (haggP : "Place Name" ∉ aggs)
    (hcols : "Place Name" ∉ data.cols)
    (hreg : ∀ p ∈ places, data.rows.filter (icbMatch p.icb) ≠ [])
    (hgp : ∀ p ∈ places, data.rows.filter (gpMatch p.gps) ≠ []) :
    yearLoop data aggs nums names places acc =
      .ok (buildDict (icbFrame data aggs nums names) (placeFrame data aggs nums names)
        places acc) := by
  induction places generalizing acc with
  | nil => rfl
  | cons p rest ih =>
    unfold yearLoop
    rw [computePlace_ok data p aggs nums names hnd hlen haggI haggP hcols
      (hreg p (by simp)) (hgp p (by simp))]
    exact ih (dictAdd acc p.icb (icbFrame data aggs nums names p.icb)
      (placeFrame data aggs nums names p))
      (fun q hq => hreg q (by simp [hq])) (fun q hq => hgp q (by simp [hq]))

/-- A successful `mapM` in the `Except` monad relates input and output
elementwise. -/
theorem mapM_ok_forall2 {α β : Type} (f : α → Except PdError β) (l : List α) (l2 : List β)
    (h : l.mapM f = .ok l2) : List.Forall₂ (fun a b => f a = .ok b) l l2 := by
  induction l generalizing l2 with
  | nil =>
    simp only [List.mapM_nil, pure, Except.pure] at h
    cases h
    constructor
  | cons hd tl ih =>
    rw [List.mapM_cons] at h
    cases hf : f hd with
    | error e =>
      rw [hf] at h
      simp only [bind, Except.bind, pure, Except.pure] at h
      cases h
    | ok b =>
      rw [hf] at h
      cases ht : tl.mapM f with
      | error e =>
        rw [ht] at h
        simp only [bind, Except.bind, pure, Except.pure] at h
        cases h
      | ok bs =>
        rw [ht] at h
        simp only [bind, Except.bind, pure, Except.pure] at h
        cases h
        exact List.Forall₂.cons hf (ih bs ht)

/-- Mapping through an elementwise relation. -/
theorem map_eq_of_forall2 {α β γ : Type} (P : α → β → Prop) (f : α → γ) (g : β → γ)
    (l : List α) (l2 : List β) (h : List.Forall₂ P l l2)
    (himp : ∀ a b, P a b → g b = f a) : l2.map g = l.map f := by
  induction h with
  | nil => rfl
  | cons hab htl ih => simp [himp _ _ hab, ih]

/-- Successful cell rounding keeps the column name, and leaves cells of
unrounded columns untouched. -/
theorem roundCell_ok_fst (cols : List String) (p : Dec) (cv cv2 : String × PyVal)
    (h : roundCell cols p cv = .ok cv2) : cv2.1 = cv.1 ∧ (cv.1 ∉ cols → cv2 = cv) := by
  unfold roundCell at h
  by_cases hmem : cv.1 ∈ cols
  · rw [if_pos hmem] at h
    cases he : excel_round cv.2 p with
    | error e =>
      rw [he] at h
      cases h
    | ok v =>
      rw [he] at h
      cases h
      exact ⟨rfl, fun hc => absurd hmem hc⟩
  · rw [if_neg hmem] at h
    cases h
    exact ⟨rfl, fun _ => rfl⟩

/-- Reading a column not subject to rounding through a rounded row. -/
theorem get_of_forall2_roundCell (cols : List String) (p : Dec) (r r2 : Row) (c : String)
    (hc : c ∉ cols)
    (h : List.Forall₂ (fun a b => roundCell cols p a = .ok b) r r2) :
    Row.get r2 c = Row.get r c := by
  induction h with
  | nil => rfl
  | cons hab htl ih =>
    rename_i a b tla tlb
    obtain ⟨hfst, hsame⟩ := roundCell_ok_fst cols p a b hab
    rw [Row.get_cons, Row.get_cons, hfst]
    cases hb : a.1 == c
    · exact ih
    · have ha : a.1 = c := by simpa using hb
      have hba : b = a := hsame (ha ▸ hc)
      rw [hba]
      simp

/-- The spec-level effect of one rounding pass on one cell: cells of the
listed columns are decimal-rounded to `e` places with ties away from
zero, all other cells are unchanged. -/
def specRoundStep (cols : List String) (e : ℕ) (cv : String × PyVal) : String × PyVal :=
  if cv.1 ∈ cols then
    match cv.2 with
    | .fnum q => (cv.1, .fnum (specRoundHalfAway q e))
    | .int n => (cv.1, .fnum (specRoundHalfAway (n : ℚ) e))
    | v => (cv.1, v)
  else cv

/-- A successful cell rounding at precision at most 1 computes exactly the
spec-level decimal rounding. -/
theorem roundCell_ok_spec (cols : List String) (p : Dec) (cv cv2 : String × PyVal)
    (hp : p.toRat ≤ 1) (h : roundCell cols p cv = .ok cv2) :
    cv2 = specRoundStep cols p.e cv := by
  have hnot : ¬ 1 < p.toRat := not_lt.mpr hp
  unfold roundCell at h
  unfold specRoundStep
  by_cases hmem : cv.1 ∈ cols
  · rw [if_pos hmem] at h
    rw [if_pos hmem]
    cases hv : cv.2 with
    | str s =>
      rw [hv] at h
      simp only [excel_round, pyIsNumeric] at h
      cases h
      simp [hv]
    | bool b =>
      rw [hv] at h
      simp only [excel_round, pyIsNumeric, if_true, hnot, if_false] at h
      cases h
    | int n =>
      rw [hv] at h
      simp only [excel_round, pyIsNumeric, if_true, hnot, if_false] at h
      cases h
      simp [quantizeHalfUp_eq_spec]
    | fnum q =>
      rw [hv] at h
      simp only [excel_round, pyIsNumeric, if_true, hnot, if_false] at h
      cases h
      simp [quantizeHalfUp_eq_spec]
    | nan =>
      rw [hv] at h
      simp only [excel_round, pyIsNumeric, if_true, hnot, if_false] at h
      cases h
    | inf s =>
      rw [hv] at h
      simp only [excel_round, pyIsNumeric, if_true, hnot, if_false] at h
      cases h
  · rw [if_neg hmem] at h
    rw [if_neg hmem]
    cases h
    rfl

/-- A successful rounding pass keeps the schema and row count and relates
every cell to its original by the spec-level rounding step. -/
theorem roundDF_ok_spec (df df2 : DF) (cols : List String) (p : Dec)
    (hp : p.toRat ≤ 1) (h : roundDF df cols p = .ok df2) :
    df2.cols = df.cols ∧
      List.Forall₂ (List.Forall₂ (fun a b => b = specRoundStep cols p.e a)) df.rows df2.rows := by
  unfold roundDF at h
  cases hm : df.rows.mapM (fun r => r.mapM (roundCell cols p)) with
  | error e =>
    rw [hm] at h
    cases h
  | ok rs =>
    rw [hm] at h
    cases h
    refine ⟨rfl, ?_⟩
    have h1 := mapM_ok_forall2 _ _ _ hm
    refine h1.imp ?_
    intro r r2 hr
    have h2 := mapM_ok_forall2 _ _ _ hr
    exact h2.imp (fun a b hab => roundCell_ok_spec cols p a b hp hab)

/-- A successful rounding pass leaves the values of columns outside the
rounded set untouched, rowwise. -/
theorem roundDF_get_preserved (df df2 : DF) (cols : List String) (p : Dec) (c : String)
    (hc : c ∉ cols) (h : roundDF df cols p = .ok df2) :
    df2.rows.map (fun r => Row.get r c) = df.rows.map (fun r => Row.get r c) := by
  unfold roundDF at h
  cases hm : df.rows.mapM (fun r => r.mapM (roundCell cols p)) with
  | error e =>
    rw [hm] at h
    cases h
  | ok rs =>
    rw [hm] at h
    cases h
    have h1 := mapM_ok_forall2 _ _ _ hm
    refine map_eq_of_forall2 _ _ _ _ _ h1 ?_
    intro r r2 hr
    exact get_of_forall2_roundCell cols p r r2 c hc (mapM_ok_forall2 _ _ _ hr)

/-- Inversion of a successful year processing into its four stages. -/
theorem processYear_ok_inv (data : DF) (places : List PlaceSpec)
    (aggs nums names : List String) (out : DF)
    (hok : processYear data places aggs nums names = .ok out) :
    ∃ dict large r1, yearLoop data aggs nums names places [] = .ok dict ∧
      concatDF (flattenDict dict) = .ok large ∧
      roundDF large (nums ++ ["GP pop"]) ⟨1, 0⟩ = .ok r1 ∧
      roundDF r1 names ⟨1, 3⟩ = .ok out := by
  unfold processYear at hok
  split at hok
  · cases hok
  · rename_i dict heq1
    split at hok
    · cases hok
    · rename_i large heq2
      split at hok
      · cases hok
      · rename_i r1 heq3
        exact ⟨dict, large, r1, heq1, heq2, heq3, hok⟩

/-- The discriminator-column sequence the spec prescribes for the combined
table: for each distinct region in order of first encounter, the region
tag followed by the tags of its places in place-definition order. -/
def specTagOrder (places : List PlaceSpec) : List PyVal :=
  ((firstDedup (places.map PlaceSpec.icb)).map (fun r =>
    PyVal.str r :: (places.filter (fun p => p.icb = r)).map (fun p => PyVal.str p.name))).flatten

/-- The tagged ICB frame carries exactly one row, tagged with the region
name. -/
theorem icbFrame_tags (data : DF) (aggs nums names : List String) (rn : String) :
    (icbFrame data aggs nums names rn).rows.map (fun r => Row.get r "Place / ICB") =
      [PyVal.str rn] := by
  simp [icbFrame, tagDF, Row.get_cons]

/-- The tagged place frame carries exactly one row, tagged with the place
name. -/
theorem placeFrame_tags (data : DF) (aggs nums names : List String) (p : PlaceSpec) :
    (placeFrame data aggs nums names p).rows.map (fun r => Row.get r "Place / ICB") =
      [PyVal.str p.name] := by
  simp [placeFrame, tagDF, Row.get_cons]

/-- Tag sequence of the concatenated rows of a list of place frames. -/
theorem tags_of_places (data : DF) (aggs nums names : List String) (ps : List PlaceSpec) :
    ((((ps.map (placeFrame data aggs nums names)).map DF.rows).flatten).map
      (fun r => Row.get r "Place / ICB")) = ps.map (fun p => PyVal.str p.name) := by
  induction ps with
  | nil => rfl
  | cons p rest ih =>
    simp only [List.map_cons, List.flatten_cons, List.map_append]
    rw [placeFrame_tags, ih]
    rfl

/-- Tag sequence of the concatenated rows of the grouped dictionary: one
region tag, then its places' tags, region group by region group. -/
theorem tags_of_group (data : DF) (aggs nums names : List String)
    (places : List PlaceSpec) (rs : List String) :
    ((((rs.map (fun r => icbFrame data aggs nums names r ::
        (places.filter (fun p => p.icb = r)).map (placeFrame data aggs nums names))).flatten).map
          DF.rows).flatten).map (fun r => Row.get r "Place / ICB") =
      (rs.map (fun r =>
        PyVal.str r :: (places.filter (fun p => p.icb = r)).map (fun p => PyVal.str p.name))).flatten := by
  induction rs with
  | nil => rfl
  | cons r rest ih =>
    simp only [List.map_cons, List.flatten_cons, List.map_append, List.flatten_append]
    rw [icbFrame_tags data aggs nums names r, tags_of_places data aggs nums names, ih]
    simp

/-- The rows of a successful concatenation are the stacked rows. -/
theorem concatDF_rows (l : List DF) (large : DF) (h : concatDF l = .ok large) :
    large.rows = (l.map DF.rows).flatten := by
  unfold concatDF at h
  cases l with
  | nil => cases h
  | cons d rest =>
    injection h with h2
    rw [← h2]

/-- C4: in the combined per-year table, each distinct owning region
appears as exactly one row even when several places belong to it (the
row of the first place encountered for that region wins), and the rows
are ordered: for each distinct region in order of first encounter, the
region's row immediately followed by the rows of every place that
references it, in place-definition order.  This is stated on the
`Place / ICB` discriminator sequence of the output table. -/
theorem C4_region_grouping (data : DF) (places : List PlaceSpec)
    (aggs nums names : List String) (out : DF)
    (hnd : names.Nodup) (hlen : names.length = nums.length)
    (haggI : "ICB name" ∉ aggs) (haggP : "Place Name" ∉ aggs)
    (hcols : "Place Name" ∉ data.cols)
    (htag1 : "Place / ICB" ∉ nums ++ ["GP pop"]) (htag2 : "Place / ICB" ∉ names)
    (hreg : ∀ p ∈ places, data.rows.filter (icbMatch p.icb) ≠ [])
    (hgp : ∀ p ∈ places, data.rows.filter (gpMatch p.gps) ≠ [])
    (hok : processYear data places aggs nums names = .ok out) :
    out.rows.map (fun r => Row.get r "Place / ICB") = specTagOrder places := by
  obtain ⟨dict, large, r1, heq1, heq2, heq3, heq4⟩ :=
    processYear_ok_inv data places aggs nums names out hok
  have hdict : dict = buildDict (icbFrame data aggs nums names)
      (placeFrame data aggs nums names) places [] := by
    rw [yearLoop_eq_buildDict data aggs nums names places [] hnd hlen haggI haggP hcols hreg hgp]
      at heq1
    injection heq1 with h
    exact h.symm
  subst hdict
  have hflat : flattenDict (buildDict (icbFrame data aggs nums names)
      (placeFrame data aggs nums names) places []) =
      ((firstDedup (places.map PlaceSpec.icb)).map (fun r =>
        icbFrame data aggs nums names r ::
          (places.filter (fun p => p.icb = r)).map (placeFrame data aggs nums names))).flatten := by
    rw [buildDict_eq_group]
    unfold flattenDict
    rw [List.map_map]
    rfl
  have hlarge : large.rows.map (fun r => Row.get r "Place / ICB") = specTagOrder places := by
    rw [concatDF_rows _ _ heq2, hflat]
    exact tags_of_group data aggs nums names places (firstDedup (places.map PlaceSpec.icb))
  rw [roundDF_get_preserved r1 out names ⟨1, 3⟩ "Place / ICB" htag2 heq4]
  rw [roundDF_get_preserved large r1 (nums ++ ["GP pop"]) ⟨1, 0⟩ "Place / ICB" htag1 heq3]
  exact hlarge

/-- C2 amended: the orchestrator's per-year output is obtained from the
full-precision combined table by rounding, only at this final step,
after all aggregation and index division: every raw summed measure
column and the population column is decimal-rounded with ties away from
zero to the nearest whole number (the code passes precision 1, whose
decimal exponent is 0 — not one decimal place), and every derived index
column is rounded to three decimal places. -/
theorem C2_amended (data : DF) (places : List PlaceSpec) (aggs nums names : List String)
    (out : DF)
    (hok : processYear data places aggs nums names = .ok out) :
    ∃ dict large mid,
      yearLoop data aggs nums names places [] = .ok dict ∧
      concatDF (flattenDict dict) = .ok large ∧
      out.cols = large.cols ∧
      List.Forall₂ (List.Forall₂ (fun a b => b = specRoundStep (nums ++ ["GP pop"]) 0 a))
        large.rows mid ∧
      List.Forall₂ (List.Forall₂ (fun a b => b = specRoundStep names 3 a)) mid out.rows := by
  obtain ⟨dict, large, r1, heq1, heq2, heq3, heq4⟩ :=
    processYear_ok_inv data places aggs nums names out hok
  obtain ⟨hc1, hf1⟩ := roundDF_ok_spec large r1 (nums ++ ["GP pop"]) ⟨1, 0⟩
    (by norm_num [Dec.toRat]) heq3
  obtain ⟨hc2, hf2⟩ := roundDF_ok_spec r1 out names ⟨1, 3⟩ (by norm_num [Dec.toRat]) heq4
  exact ⟨dict, large, r1.rows, heq1, heq2, by rw [hc2, hc1], hf1, hf2⟩

/-- Elementwise content of a completed (exception-free) year loop over the
dataset dictionary. -/
theorem yearsAux_none (ss : List PlaceSpec) (aggs nums names : List String)
    (d : List (String × DF)) (post : List (String × DF))
    (h : yearsAux ss aggs nums names d = (post, none)) :
    post.map Prod.fst = d.map Prod.fst ∧ post.length = d.length ∧
    ∀ i (hi : i < d.length) (hi2 : i < post.length),
      processYear (d[i]).2 ss aggs nums names = .ok ((post[i]).2) := by
  induction d generalizing post with
  | nil =>
    unfold yearsAux at h
    injection h with h1 h2
    subst h1
    refine ⟨rfl, rfl, ?_⟩
    intro i hi
    simp at hi
  | cons yd rest ih =>
    unfold yearsAux at h
    cases hpy : processYear yd.2 ss aggs nums names with
    | error e =>
      rw [hpy] at h
      injection h with h1 h2
      cases h2
    | ok out =>
      rw [hpy] at h
      injection h with h1 h2
      have hrest : yearsAux ss aggs nums names rest = ((yearsAux ss aggs nums names rest).1, none) :=
        Prod.ext rfl h2
      obtain ⟨hm, hl, hp⟩ := ih (yearsAux ss aggs nums names rest).1 hrest
      subst h1
      refine ⟨by simp [hm], by simp [hl], ?_⟩
      intro i hi hi2
      cases i with
      | zero => simpa using hpy
      | succ n =>
        simp only [List.getElem_cons_succ]
        exact hp n (by simpa using hi) (by simpa using hi2)

/-- C9: `get_data_for_all_years` mutates its `dataset_dict` argument in
place — modelled by the explicit post-call state — and returns that same
mutated dictionary: on success the return value equals the post-call
state of the argument, the keys are unchanged, and every year key now
maps to the aggregated/indexed/rounded result of processing its original
raw table (the raw per-practice table is no longer in the dictionary). -/
theorem C9_datasets_mutated (d : List (String × DF)) (ss : List PlaceSpec)
    (aggs nums names : List String) (res : List (String × DF))
    (hok : get_data_for_all_years d ss aggs nums names = .ok res) :
    res = get_data_for_all_years_post d ss aggs nums names ∧
    res.map Prod.fst = d.map Prod.fst ∧
    res.length = d.length ∧
    ∀ i (hi : i < d.length) (hi2 : i < res.length),
      processYear (d[i]).2 ss aggs nums names = .ok ((res[i]).2) := by
  unfold get_data_for_all_years at hok
  split at hok
  · rename_i post heq
    injection hok with h1
    subst h1
    obtain ⟨hm, hl, hp⟩ := yearsAux_none ss aggs nums names d post heq
    refine ⟨?_, hm, hl, hp⟩
    unfold get_data_for_all_years_post
    rw [heq]
  · cases hok

/-- Two concrete places over `exData`, both owned by region R1. -/
def exP1 : PlaceSpec := ⟨"P1", ["A"], "R1"⟩

/-- Second concrete place, to exercise region-row deduplication. -/
def exP2 : PlaceSpec := ⟨"P2", ["B"], "R1"⟩

/-- The decimal branch of `excel_round`, as one equation. -/
theorem excel_round_fnum (q : ℚ) (p : Dec) (hp : p.toRat ≤ 1) :
    excel_round (.fnum q) p = .ok (.fnum (specRoundHalfAway q p.e)) := by
  have hnot : ¬ 1 < p.toRat := not_lt.mpr hp
  simp [excel_round, pyIsNumeric, hnot, quantizeHalfUp_eq_spec]

theorem exRegionRow : regionRow exData ["GP pop", "W"] "R1" =
    [("GP pop", PyVal.fnum 300), ("W", PyVal.fnum 300)] := by
  have hfil : exData.rows.filter (icbMatch "R1") = exData.rows := by decide
  have hg1 : exData.rows.map (fun r => Row.get r "GP pop") = [.fnum 100, .fnum 200] := by decide
  have hg2 : exData.rows.map (fun r => Row.get r "W") = [.fnum 110, .fnum 190] := by decide
  unfold regionRow aggRowOf
  rw [hfil]
  simp only [List.map_cons, List.map_nil, hg1, hg2]
  norm_num [groupSum, padd]

theorem exPlaceRow1 : placeBaseRow exData ["GP pop", "W"] exP1 =
    [("GP pop", PyVal.fnum 100), ("W", PyVal.fnum 110)] := by
  have hfil : exData.rows.filter (gpMatch exP1.gps) =
      [[("practice_display", PyVal.str "A"), ("ICB name", PyVal.str "R1"),
        ("GP pop", PyVal.fnum 100), ("W", PyVal.fnum 110)]] := by decide
  have hg1 : Row.get [("practice_display", PyVal.str "A"), ("ICB name", PyVal.str "R1"),
      ("GP pop", PyVal.fnum 100), ("W", PyVal.fnum 110)] "GP pop" = .fnum 100 := by decide
  have hg2 : Row.get [("practice_display", PyVal.str "A"), ("ICB name", PyVal.str "R1"),
      ("GP pop", PyVal.fnum 100), ("W", PyVal.fnum 110)] "W" = .fnum 110 := by decide
  unfold placeBaseRow aggRowOf
  rw [hfil]
  simp only [List.map_cons, List.map_nil, hg1, hg2]
  norm_num [groupSum, padd]

theorem exPlaceRow2 : placeBaseRow exData ["GP pop", "W"] exP2 =
    [("GP pop", PyVal.fnum 200), ("W", PyVal.fnum 190)] := by
  have hfil : exData.rows.filter (gpMatch exP2.gps) =
      [[("practice_display", PyVal.str "B"), ("ICB name", PyVal.str "R1"),
        ("GP pop", PyVal.fnum 200), ("W", PyVal.fnum 190)]] := by decide
  have hg1 : Row.get [("practice_display", PyVal.str "B"), ("ICB name", PyVal.str "R1"),
      ("GP pop", PyVal.fnum 200), ("W", PyVal.fnum 190)] "GP pop" = .fnum 200 := by decide
  have hg2 : Row.get [("practice_display", PyVal.str "B"), ("ICB name", PyVal.str "R1"),
      ("GP pop", PyVal.fnum 200), ("W", PyVal.fnum 190)] "W" = .fnum 190 := by decide
  unfold placeBaseRow aggRowOf
  rw [hfil]
  simp only [List.map_cons, List.map_nil, hg1, hg2]
  norm_num [groupSum, padd]

theorem exRegionQuot : indexQuotients ["W"] [("GP pop", PyVal.fnum 300), ("W", PyVal.fnum 300)] =
    [PyVal.fnum 1] := by
  have h1 : Row.get [("GP pop", PyVal.fnum 300), ("W", PyVal.fnum 300)] "W" = .fnum 300 := by
    decide
  have h2 : Row.get [("GP pop", PyVal.fnum 300), ("W", PyVal.fnum 300)] "GP pop" = .fnum 300 := by
    decide
  simp only [indexQuotients, List.map_cons, List.map_nil, h1, h2]
  norm_num [pdiv]

theorem exRegionIndexed : regionIndexed exData ["GP pop", "W"] ["W"] ["I"] "R1" =
    [("GP pop", PyVal.fnum 300), ("W", PyVal.fnum 300), ("I", PyVal.fnum 1)] := by
  unfold regionIndexed
  rw [exRegionRow, exRegionQuot]
  decide

theorem exPlaceIndexed1 : placeIndexed exData ["GP pop", "W"] ["W"] ["I"] exP1 =
    [("GP pop", PyVal.fnum 100), ("W", PyVal.fnum 110), ("I", PyVal.fnum (11 / 10))] := by
  unfold placeIndexed
  have hrr : regionRow exData ["GP pop", "W"] exP1.icb =
      [("GP pop", PyVal.fnum 300), ("W", PyVal.fnum 300)] := exRegionRow
  rw [exPlaceRow1, hrr, exRegionQuot]
  have hq : indexQuotients ["W"] [("GP pop", PyVal.fnum 100), ("W", PyVal.fnum 110)] =
      [PyVal.fnum (11 / 10)] := by
    have h1 : Row.get [("GP pop", PyVal.fnum 100), ("W", PyVal.fnum 110)] "W" = .fnum 110 := by
      decide
    have h2 : Row.get [("GP pop", PyVal.fnum 100), ("W", PyVal.fnum 110)] "GP pop" = .fnum 100 := by
      decide
    simp only [indexQuotients, List.map_cons, List.map_nil, h1, h2]
    norm_num [pdiv]
  rw [hq]
  have hz : List.zipWith pdiv [PyVal.fnum (11 / 10)] [PyVal.fnum 1] =
      [PyVal.fnum (11 / 10)] := by
    norm_num [List.zipWith, pdiv]
  rw [hz]
  have hh : Row.hasCol [("GP pop", PyVal.fnum 100), ("W", PyVal.fnum 110)] "I" = false := by
    decide
  simp [Row.setCols, Row.setCol, hh]

theorem exPlaceIndexed2 : placeIndexed exData ["GP pop", "W"] ["W"] ["I"] exP2 =
    [("GP pop", PyVal.fnum 200), ("W", PyVal.fnum 190), ("I", PyVal.fnum (19 / 20))] := by
  unfold placeIndexed
  have hrr : regionRow exData ["GP pop", "W"] exP2.icb =
      [("GP pop", PyVal.fnum 300), ("W", PyVal.fnum 300)] := exRegionRow
  rw [exPlaceRow2, hrr, exRegionQuot]
  have hq : indexQuotients ["W"] [("GP pop", PyVal.fnum 200), ("W", PyVal.fnum 190)] =
      [PyVal.fnum (19 / 20)] := by
    have h1 : Row.get [("GP pop", PyVal.fnum 200), ("W", PyVal.fnum 190)] "W" = .fnum 190 := by
      decide
    have h2 : Row.get [("GP pop", PyVal.fnum 200), ("W", PyVal.fnum 190)] "GP pop" = .fnum 200 := by
      decide
    simp only [indexQuotients, List.map_cons, List.map_nil, h1, h2]
    norm_num [pdiv]
  rw [hq]
  have hz : List.zipWith pdiv [PyVal.fnum (19 / 20)] [PyVal.fnum 1] =
      [PyVal.fnum (19 / 20)] := by
    norm_num [List.zipWith, pdiv]
  rw [hz]
  have hh : Row.hasCol [("GP pop", PyVal.fnum 200), ("W", PyVal.fnum 190)] "I" = false := by
    decide
  simp [Row.setCols, Row.setCol, hh]

theorem exLoop : yearLoop exData ["GP pop", "W"] ["W"] ["I"] [exP1, exP2] [] =
    .ok [("R1", [icbFrame exData ["GP pop", "W"] ["W"] ["I"] "R1",
      placeFrame exData ["GP pop", "W"] ["W"] ["I"] exP1,
      placeFrame exData ["GP pop", "W"] ["W"] ["I"] exP2])] := by
  rw [yearLoop_eq_buildDict exData ["GP pop", "W"] ["W"] ["I"] [exP1, exP2] []
    (by decide) rfl (by decide) (by decide) (by decide) (by decide) (by decide)]
  simp [buildDict, dictAdd, exP1, exP2]

/-- The combined (and, here, also final) concrete table for the two-place
run over `exData`. -/
def exCombined : DF :=
  ⟨["Place / ICB", "GP pop", "W", "I"],
   [[("Place / ICB", PyVal.str "R1"), ("GP pop", PyVal.fnum 300), ("W", PyVal.fnum 300),
     ("I", PyVal.fnum 1)],
    [("Place / ICB", PyVal.str "P1"), ("GP pop", PyVal.fnum 100), ("W", PyVal.fnum 110),
     ("I", PyVal.fnum (11 / 10))],
    [("Place / ICB", PyVal.str "P2"), ("GP pop", PyVal.fnum 200), ("W", PyVal.fnum 190),
     ("I", PyVal.fnum (19 / 20))]]⟩

theorem exConcat : concatDF (flattenDict [("R1",
    [icbFrame exData ["GP pop", "W"] ["W"] ["I"] "R1",
     placeFrame exData ["GP pop", "W"] ["W"] ["I"] exP1,
     placeFrame exData ["GP pop", "W"] ["W"] ["I"] exP2])]) = .ok exCombined := by
  have hcu : colsUnion ["GP pop", "W"] ["I"] = ["GP pop", "W", "I"] := by decide
  simp only [flattenDict, List.map_cons, List.map_nil, List.flatten_cons, List.flatten_nil,
    icbFrame, placeFrame, tagDF, hcu, exRegionIndexed, exPlaceIndexed1, exPlaceIndexed2,
    concatDF, List.append_nil, exCombined]
  simp [exP1, exP2]

theorem exR0_300 : excel_round (.fnum 300) ⟨1, 0⟩ = .ok (.fnum 300) := by
  rw [excel_round_fnum 300 ⟨1, 0⟩ (by norm_num [Dec.toRat])]
  norm_num [specRoundHalfAway, roundHalfAwayZero]

theorem exR0_100 : excel_round (.fnum 100) ⟨1, 0⟩ = .ok (.fnum 100) := by
  rw [excel_round_fnum 100 ⟨1, 0⟩ (by norm_num [Dec.toRat])]
  norm_num [specRoundHalfAway, roundHalfAwayZero]

theorem exR0_110 : excel_round (.fnum 110) ⟨1, 0⟩ = .ok (.fnum 110) := by
  rw [excel_round_fnum 110 ⟨1, 0⟩ (by norm_num [Dec.toRat])]
  norm_num [specRoundHalfAway, roundHalfAwayZero]

theorem exR0_200 : excel_round (.fnum 200) ⟨1, 0⟩ = .ok (.fnum 200) := by
  rw [excel_round_fnum 200 ⟨1, 0⟩ (by norm_num [Dec.toRat])]
  norm_num [specRoundHalfAway, roundHalfAwayZero]

theorem exR0_190 : excel_round (.fnum 190) ⟨1, 0⟩ = .ok (.fnum 190) := by
  rw [excel_round_fnum 190 ⟨1, 0⟩ (by norm_num [Dec.toRat])]
  norm_num [specRoundHalfAway, roundHalfAwayZero]

theorem exR3_1 : excel_round (.fnum 1) ⟨1, 3⟩ = .ok (.fnum 1) := by
  rw [excel_round_fnum 1 ⟨1, 3⟩ (by norm_num [Dec.toRat])]
  norm_num [specRoundHalfAway, roundHalfAwayZero]

theorem exR3_11 : excel_round (.fnum (11 / 10)) ⟨1, 3⟩ = .ok (.fnum (11 / 10)) := by
  rw [excel_round_fnum (11 / 10) ⟨1, 3⟩ (by norm_num [Dec.toRat])]
  norm_num [specRoundHalfAway, roundHalfAwayZero]

theorem exR3_19 : excel_round (.fnum (19 / 20)) ⟨1, 3⟩ = .ok (.fnum (19 / 20)) := by
  rw [excel_round_fnum (19 / 20) ⟨1, 3⟩ (by norm_num [Dec.toRat])]
  norm_num [specRoundHalfAway, roundHalfAwayZero]

theorem exRound1 : roundDF exCombined (["W"] ++ ["GP pop"]) ⟨1, 0⟩ = .ok exCombined := by
  simp only [exCombined, roundDF, List.mapM_cons, List.mapM_nil, roundCell,
    exR0_300, exR0_100, exR0_110, exR0_200, exR0_190]
  simp [bind, Except.bind, pure, Except.pure]

theorem exRound2 : roundDF exCombined ["I"] ⟨1, 3⟩ = .ok exCombined := by
  simp only [exCombined, roundDF, List.mapM_cons, List.mapM_nil, roundCell,
    exR3_1, exR3_11, exR3_19]
  simp [bind, Except.bind, pure, Except.pure]

theorem exRun : processYear exData [exP1, exP2] ["GP pop", "W"] ["W"] ["I"] = .ok exCombined := by
  unfold processYear
  simp only [exLoop, exConcat, exRound1, exRound2]

theorem exYears : get_data_for_all_years [("2024_25", exData)] [exP1, exP2]
    ["GP pop", "W"] ["W"] ["I"] = .ok [("2024_25", exCombined)] := by
  unfold get_data_for_all_years yearsAux
  simp only [exRun]
  rfl

/-- Witness for C4: the two-place run over `exData` produces the region
row once, followed by both places' rows in definition order. -/
theorem C4_region_grouping_witness :
    exCombined.rows.map (fun r => Row.get r "Place / ICB") = specTagOrder [exP1, exP2] ∧
    specTagOrder [exP1, exP2] = [PyVal.str "R1", PyVal.str "P1", PyVal.str "P2"] := by
  refine ⟨?_, by decide⟩
  exact C4_region_grouping exData [exP1, exP2] ["GP pop", "W"] ["W"] ["I"] exCombined
    (by decide) rfl (by decide) (by decide) (by decide) (by decide) (by decide)
    (by decide) (by decide) exRun

/-- Witness for C2 amended, at the concrete two-place run. -/
theorem C2_amended_witness :
    ∃ dict large mid,
      yearLoop exData ["GP pop", "W"] ["W"] ["I"] [exP1, exP2] [] = .ok dict ∧
      concatDF (flattenDict dict) = .ok large ∧
      exCombined.cols = large.cols ∧
      List.Forall₂ (List.Forall₂ (fun a b => b = specRoundStep (["W"] ++ ["GP pop"]) 0 a))
        large.rows mid ∧
      List.Forall₂ (List.Forall₂ (fun a b => b = specRoundStep ["I"] 3 a)) mid exCombined.rows :=
  C2_amended exData [exP1, exP2] ["GP pop", "W"] ["W"] ["I"] exCombined exRun

/-- Witness for C9: after the concrete run the dictionary's only year key
holds the processed table, and the return value is the post-call state
of the argument. -/
theorem C9_datasets_mutated_witness :
    [("2024_25", exCombined)] =
      get_data_for_all_years_post [("2024_25", exData)] [exP1, exP2] ["GP pop", "W"] ["W"] ["I"] ∧
    processYear exData [exP1, exP2] ["GP pop", "W"] ["W"] ["I"] = .ok exCombined := by
  obtain ⟨h1, h2, h3, h4⟩ := C9_datasets_mutated [("2024_25", exData)] [exP1, exP2]
    ["GP pop", "W"] ["W"] ["I"] [("2024_25", exCombined)] exYears
  refine ⟨h1, ?_⟩
  have h5 := h4 0 (by simp) (by simp)
  simpa using h5

/-- The rational 401/4 = 100.25 as a normalized literal (so that rows
holding it stay kernel-decidable where no arithmetic is involved). -/
def q10025 : ℚ := Rat.mk' 401 4 (by decide) (by decide)

theorem q10025_eq : q10025 = 401 / 4 := by
  have h := (Rat.num_div_den q10025).symm
  simpa [q10025] using h

/-- A one-practice dataset whose registered population is 100.25, to
exhibit the rounding precision of the population column. -/
def exData2 : DF :=
  ⟨["practice_display", "ICB name", "GP pop", "W"],
   [[("practice_display", .str "A"), ("ICB name", .str "R1"),
     ("GP pop", .fnum q10025), ("W", .fnum 110)]]⟩

theorem ex2RegionRow : regionRow exData2 ["GP pop", "W"] "R1" =
    [("GP pop", PyVal.fnum (401 / 4)), ("W", PyVal.fnum 110)] := by
  have hfil : exData2.rows.filter (icbMatch "R1") = exData2.rows := by decide
  have hg1 : Row.get [("practice_display", PyVal.str "A"), ("ICB name", PyVal.str "R1"),
      ("GP pop", PyVal.fnum q10025), ("W", PyVal.fnum 110)] "GP pop" = .fnum q10025 := by decide
  have hg2 : Row.get [("practice_display", PyVal.str "A"), ("ICB name", PyVal.str "R1"),
      ("GP pop", PyVal.fnum q10025), ("W", PyVal.fnum 110)] "W" = .fnum 110 := by decide
  unfold regionRow aggRowOf
  rw [hfil]
  simp only [exData2, List.map_cons, List.map_nil, hg1, hg2]
  norm_num [groupSum, padd, q10025_eq]

theorem ex2PlaceRow : placeBaseRow exData2 ["GP pop", "W"] exP1 =
    [("GP pop", PyVal.fnum (401 / 4)), ("W", PyVal.fnum 110)] := by
  have hfil : exData2.rows.filter (gpMatch exP1.gps) = exData2.rows := by decide
  have hg1 : Row.get [("practice_display", PyVal.str "A"), ("ICB name", PyVal.str "R1"),
      ("GP pop", PyVal.fnum q10025), ("W", PyVal.fnum 110)] "GP pop" = .fnum q10025 := by decide
  have hg2 : Row.get [("practice_display", PyVal.str "A"), ("ICB name", PyVal.str "R1"),
      ("GP pop", PyVal.fnum q10025), ("W", PyVal.fnum 110)] "W" = .fnum 110 := by decide
  unfold placeBaseRow aggRowOf
  rw [hfil]
  simp only [exData2, List.map_cons, List.map_nil, hg1, hg2]
  norm_num [groupSum, padd, q10025_eq]

theorem ex2Quot : indexQuotients ["W"] [("GP pop", PyVal.fnum (401 / 4)), ("W", PyVal.fnum 110)] =
    [PyVal.fnum (440 / 401)] := by
  have h1 : Row.get [("GP pop", PyVal.fnum (401 / 4)), ("W", PyVal.fnum 110)] "W" =
      .fnum 110 := by simp [Row.get, List.find?]
  have h2 : Row.get [("GP pop", PyVal.fnum (401 / 4)), ("W", PyVal.fnum 110)] "GP pop" =
      .fnum (401 / 4) := by simp [Row.get, List.find?]
  simp only [indexQuotients, List.map_cons, List.map_nil, h1, h2]
  norm_num [pdiv]

theorem ex2RegionIndexed : regionIndexed exData2 ["GP pop", "W"] ["W"] ["I"] "R1" =
    [("GP pop", PyVal.fnum (401 / 4)), ("W", PyVal.fnum 110), ("I", PyVal.fnum (440 / 401))] := by
  unfold regionIndexed
  rw [ex2RegionRow, ex2Quot]
  have hh : Row.hasCol [("GP pop", PyVal.fnum (401 / 4)), ("W", PyVal.fnum 110)] "I" = false := by
    simp [Row.hasCol]
  simp [Row.setCols, Row.setCol, hh]

theorem ex2PlaceIndexed : placeIndexed exData2 ["GP pop", "W"] ["W"] ["I"] exP1 =
    [("GP pop", PyVal.fnum (401 / 4)), ("W", PyVal.fnum 110), ("I", PyVal.fnum 1)] := by
  unfold placeIndexed
  have hrr : regionRow exData2 ["GP pop", "W"] exP1.icb =
      [("GP pop", PyVal.fnum (401 / 4)), ("W", PyVal.fnum 110)] := ex2RegionRow
  rw [ex2PlaceRow, hrr, ex2Quot]
  have hz : List.zipWith pdiv [PyVal.fnum (440 / 401)] [PyVal.fnum (440 / 401)] =
      [PyVal.fnum 1] := by
    norm_num [List.zipWith, pdiv]
  rw [hz]
  have hh : Row.hasCol [("GP pop", PyVal.fnum (401 / 4)), ("W", PyVal.fnum 110)] "I" = false := by
    simp [Row.hasCol]
  simp [Row.setCols, Row.setCol, hh]

theorem ex2Loop : yearLoop exData2 ["GP pop", "W"] ["W"] ["I"] [exP1] [] =
    .ok [("R1", [icbFrame exData2 ["GP pop", "W"] ["W"] ["I"] "R1",
      placeFrame exData2 ["GP pop", "W"] ["W"] ["I"] exP1])] := by
  rw [yearLoop_eq_buildDict exData2 ["GP pop", "W"] ["W"] ["I"] [exP1] []
    (by decide) rfl (by decide) (by decide) (by decide) (by decide) (by decide)]
  simp [buildDict, dictAdd, exP1]

/-- The full-precision combined table of the 100.25 run. -/
def exCombined2 : DF :=
  ⟨["Place / ICB", "GP pop", "W", "I"],
   [[("Place / ICB", PyVal.str "R1"), ("GP pop", PyVal.fnum (401 / 4)), ("W", PyVal.fnum 110),
     ("I", PyVal.fnum (440 / 401))],
    [("Place / ICB", PyVal.str "P1"), ("GP pop", PyVal.fnum (401 / 4)), ("W", PyVal.fnum 110),
     ("I", PyVal.fnum 1)]]⟩

/-- The rounded output table of the 100.25 run: the population column is
rounded to the nearest whole number (100), not to one decimal place. -/
def exOut2 : DF :=
  ⟨["Place / ICB", "GP pop", "W", "I"],
   [[("Place / ICB", PyVal.str "R1"), ("GP pop", PyVal.fnum 100), ("W", PyVal.fnum 110),
     ("I", PyVal.fnum (1097 / 1000))],
    [("Place / ICB", PyVal.str "P1"), ("GP pop", PyVal.fnum 100), ("W", PyVal.fnum 110),
     ("I", PyVal.fnum 1)]]⟩

theorem ex2Concat : concatDF (flattenDict [("R1",
    [icbFrame exData2 ["GP pop", "W"] ["W"] ["I"] "R1",
     placeFrame exData2 ["GP pop", "W"] ["W"] ["I"] exP1])]) = .ok exCombined2 := by
  have hcu : colsUnion ["GP pop", "W"] ["I"] = ["GP pop", "W", "I"] := by decide
  simp only [flattenDict, List.map_cons, List.map_nil, List.flatten_cons, List.flatten_nil,
    icbFrame, placeFrame, tagDF, hcu, ex2RegionIndexed, ex2PlaceIndexed,
    concatDF, List.append_nil, exCombined2]
  simp [exP1]

theorem ex2R0 : excel_round (.fnum (401 / 4)) ⟨1, 0⟩ = .ok (.fnum 100) := by
  rw [excel_round_fnum (401 / 4) ⟨1, 0⟩ (by norm_num [Dec.toRat])]
  norm_num [specRoundHalfAway, roundHalfAwayZero]

theorem ex2R3 : excel_round (.fnum (440 / 401)) ⟨1, 3⟩ = .ok (.fnum (1097 / 1000)) := by
  rw [excel_round_fnum (440 / 401) ⟨1, 3⟩ (by norm_num [Dec.toRat])]
  norm_num [specRoundHalfAway, roundHalfAwayZero]

theorem ex2Round1 : roundDF exCombined2 (["W"] ++ ["GP pop"]) ⟨1, 0⟩ =
    .ok ⟨["Place / ICB", "GP pop", "W", "I"],
      [[("Place / ICB", PyVal.str "R1"), ("GP pop", PyVal.fnum 100), ("W", PyVal.fnum 110),
        ("I", PyVal.fnum (440 / 401))],
       [("Place / ICB", PyVal.str "P1"), ("GP pop", PyVal.fnum 100), ("W", PyVal.fnum 110),
        ("I", PyVal.fnum 1)]]⟩ := by
  simp only [exCombined2, roundDF, List.mapM_cons, List.mapM_nil, roundCell,
    ex2R0, exR0_110]
  simp [bind, Except.bind, pure, Except.pure]

theorem ex2Round2 : roundDF ⟨["Place / ICB", "GP pop", "W", "I"],
      [[("Place / ICB", PyVal.str "R1"), ("GP pop", PyVal.fnum 100), ("W", PyVal.fnum 110),
        ("I", PyVal.fnum (440 / 401))],
       [("Place / ICB", PyVal.str "P1"), ("GP pop", PyVal.fnum 100), ("W", PyVal.fnum 110),
        ("I", PyVal.fnum 1)]]⟩ ["I"] ⟨1, 3⟩ = .ok exOut2 := by
  simp only [roundDF, List.mapM_cons, List.mapM_nil, roundCell, ex2R3, exR3_1, exOut2]
  simp [bind, Except.bind, pure, Except.pure]

theorem ex2Run : processYear exData2 [exP1] ["GP pop", "W"] ["W"] ["I"] = .ok exOut2 := by
  unfold processYear
  simp only [ex2Loop, ex2Concat, ex2Round1, ex2Round2]

/-- C2 counterexample: with a summed population of 100.25, the final table
holds 100 in the population column — precision 1 quantizes to the
nearest whole number — whereas rounding to one decimal place, as the
claim states, would give 100.3. -/
theorem C2_counterexample :
    processYear exData2 [exP1] ["GP pop", "W"] ["W"] ["I"] = .ok exOut2 ∧
    regionRow exData2 ["GP pop", "W"] "R1" =
      [("GP pop", PyVal.fnum (401 / 4)), ("W", PyVal.fnum 110)] ∧
    exOut2.rows.map (fun r => Row.get r "GP pop") = [PyVal.fnum 100, PyVal.fnum 100] ∧
    specRoundHalfAway (401 / 4) 1 = 1003 / 10 ∧
    PyVal.fnum 100 ≠ PyVal.fnum (1003 / 10) := by
  refine ⟨ex2Run, ex2RegionRow, ?_, ?_, ?_⟩
  · simp [exOut2, Row.get, List.find?]
  · norm_num [specRoundHalfAway, roundHalfAwayZero]
  · simp only [ne_eq, PyVal.fnum.injEq]
    norm_num

theorem C7_amended_witness :
    (aggregate ⟨["GP pop"], [[("GP pop", PyVal.fnum 1)]]⟩ "P" "Place Name" ["GP pop"]).1 =
        { cols := ["Place Name", "GP pop"],
          rows := [[("Place Name", PyVal.str "P"), ("GP pop", PyVal.fnum 1)]] } ∧
      (aggregate ⟨["GP pop"], [[("GP pop", PyVal.fnum 1)]]⟩ "P" "Place Name" ["GP pop"]).1 ≠
        ⟨["GP pop"], [[("GP pop", PyVal.fnum 1)]]⟩ :=
  (C7_amended ⟨["GP pop"], [[("GP pop", PyVal.fnum 1)]]⟩ "P" "Place Name" ["GP pop"]).2
    (by decide)

/-! ### Session-state export / reload (`session_state_dump`, `submit`)

Streamlit session state is a single string-keyed dictionary; attribute
access (`st.session_state.places`) and subscript access
(`st.session_state["places"]`) alias the same entry.  Values relevant to
the place collection are either a list of strings (the `places` list) or
a place definition `{"gps": [...], "icb": ...}`.  Dictionaries preserve
insertion order; assigning to an existing key updates it in place,
assigning to a fresh key appends it. -/

inductive SVal where
  | strList : List String → SVal
  | placeDef : List String → String → SVal
deriving DecidableEq, Repr

/-- Python `d[k]` as a total lookup (`none` models `KeyError`). -/
def dictGet (d : List (String × SVal)) (k : String) : Option SVal :=
  (d.find? (fun p => p.1 == k)).map (fun p => p.2)

/-- Python `k in d`. -/
def hasKey (d : List (String × SVal)) (k : String) : Bool :=
  d.any (fun p => p.1 == k)

/-- Python `d[k] = v`: update in place if the key exists, else append. -/
def dictSet (d : List (String × SVal)) (k : String) (v : SVal) :
    List (String × SVal) :=
  if hasKey d k then d.map (fun p => if p.1 == k then (k, v) else p)
  else d ++ [(k, v)]

/-- `dict.fromkeys(places, [])`: one key per distinct place, in
first-occurrence order, each mapped to the empty list. -/
def fromkeysEmpty (places : List String) : List (String × SVal) :=
  places.foldl (fun d k => if hasKey d k then d else d ++ [(k, SVal.strList [])]) []

/-- The loop body shared by the dump and the reload: for each key in
`keys`, copy `src[key]` into the destination dictionary (`none` models the
`KeyError` raised when `src` lacks the key). -/
def copyKeys (src : List (String × SVal)) (keys : List String)
    (dst : List (String × SVal)) : Option (List (String × SVal)) :=
  keys.foldlM (fun dd key =>
    match dictGet src key with
    | some v => some (dictSet dd key v)
    | none => none) dst

/-- `ICB_Place_Based_Tool.py` lines 378–388: build `session_state_dict`
from the places list, fill each place key from the session, then store the
places list itself under the key `"places"`; the JSON string serializes
exactly this ordered dictionary. -/
def session_state_dump (s : List (String × SVal)) :
    Option (List (String × SVal)) :=
  match dictGet s "places" with
  | some (SVal.strList places) =>
    let m1 := fromkeysEmpty places
    match copyKeys s (m1.map (fun p => p.1)) m1 with
    | some m2 => some (dictSet m2 "places" (SVal.strList places))
    | none => none
  | _ => none

/-- `ICB_Place_Based_Tool.py` lines 409–418: reload an uploaded document
`d` into the session — overwrite the places list from `d["places"]`, then
copy each listed place's entry from `d`. -/
def submit (d : List (String × SVal)) (s : List (String × SVal)) :
    Option (List (String × SVal)) :=
  match dictGet d "places" with
  | some pl =>
    match pl with
    | SVal.strList places => copyKeys d places (dictSet s "places" pl)
    | _ => none
  | none => none

/-- A place collection: ordered place names, each with its member-practice
list and owning region. -/
structure PlaceCollection where
  items : List (String × List String × String)
deriving DecidableEq, Repr

def PlaceCollection.names (c : PlaceCollection) : List String :=
  c.items.map (fun p => p.1)

/-- Session state `s` holds collection `c`: the `places` key holds the
name list and each place name holds its definition. -/
def loadsCollection (s : List (String × SVal)) (c : PlaceCollection) : Prop :=
  dictGet s "places" = some (SVal.strList c.names) ∧
    ∀ p ∈ c.items, dictGet s p.1 = some (SVal.placeDef p.2.1 p.2.2)

instance (s : List (String × SVal)) (c : PlaceCollection) :
    Decidable (loadsCollection s c) := by
  unfold loadsCollection
  infer_instance

/-- Saving each place in definition order writes its definition under its
name (the "Save Place" assignments `st.session_state[place_name] = {...}`). -/
def savePlaces (items : List (String × List String × String))
    (s : List (String × SVal)) : List (String × SVal) :=
  items.foldl (fun st p => dictSet st p.1 (SVal.placeDef p.2.1 p.2.2)) s

/-- The session state holding collection `c`: the place definitions plus
the places list maintained under the aliased key `"places"`. -/
def encodeCollection (c : PlaceCollection) : List (String × SVal) :=
  dictSet (savePlaces c.items []) "places" (SVal.strList c.names)

theorem hasKey_false_find? (d : List (String × SVal)) (k : String)
    (h : hasKey d k = false) : d.find? (fun p => p.1 == k) = none := by
  rw [List.find?_eq_none]
  intro x hx hk
  have hany : d.any (fun p => p.1 == k) = true := List.any_eq_true.mpr ⟨x, hx, hk⟩
  rw [hasKey, hany] at h
  exact Bool.true_eq_false.mp h

theorem find?_map_set (d : List (String × SVal)) (k : String) (v : SVal) :
    (d.map (fun p => if p.1 == k then (k, v) else p)).find? (fun p => p.1 == k) =
      if hasKey d k then some (k, v) else none := by
  induction d with
  | nil => simp [hasKey]
  | cons q d ih =>
    by_cases hq : q.1 = k
    · have hq' : (q.1 == k) = true := by simp [hq]
      rw [List.map_cons, if_pos hq']
      rw [List.find?_cons_of_pos _ (by simp)]
      have : hasKey (q :: d) k = true := by simp [hasKey, hq']
      rw [if_pos this]
    · have hq' : (q.1 == k) = false := by simp [hq]
      rw [List.map_cons, if_neg (by simp [hq])]
      rw [List.find?_cons_of_neg _ (by simp [hq]), ih]
      have : hasKey (q :: d) k = hasKey d k := by simp [hasKey, hq']
      rw [this]

theorem dictGet_dictSet_self (d : List (String × SVal)) (k : String) (v : SVal) :
    dictGet (dictSet d k v) k = some v := by
  unfold dictGet dictSet
  by_cases h : hasKey d k
  · rw [if_pos h, find?_map_set, if_pos h]
    rfl
  · have h' : hasKey d k = false := by simpa using h
    rw [if_neg h, List.find?_append, hasKey_false_find? d k h']
    simp [List.find?]

theorem find?_map_set_other (d : List (String × SVal)) (k k' : String)
    (v : SVal) (hne : k' ≠ k) :
    (d.map (fun p => if p.1 == k then (k, v) else p)).find? (fun p => p.1 == k') =
      d.find? (fun p => p.1 == k') := by
  induction d with
  | nil => rfl
  | cons q d ih =>
    rw [List.map_cons]
    by_cases hq : q.1 = k
    · rw [if_pos (by simp [hq])]
      rw [List.find?_cons_of_neg _ (by simp [Ne.symm hne]),
        List.find?_cons_of_neg _ (by simp [hq, Ne.symm hne]), ih]
    · rw [if_neg (by simp [hq])]
      by_cases hq2 : q.1 = k'
      · rw [List.find?_cons_of_pos _ (by simp [hq2]),
          List.find?_cons_of_pos _ (by simp [hq2])]
      · rw [List.find?_cons_of_neg _ (by simp [hq2]),
          List.find?_cons_of_neg _ (by simp [hq2]), ih]

theorem dictGet_dictSet_other (d : List (String × SVal)) (k k' : String)
    (v : SVal) (hne : k' ≠ k) : dictGet (dictSet d k v) k' = dictGet d k' := by
  unfold dictGet dictSet
  by_cases h : hasKey d k
  · rw [if_pos h, find?_map_set_other d k k' v hne]
  · rw [if_neg h, List.find?_append]
    have hk2 : (k == k') = false := by simp [Ne.symm hne]
    simp [List.find?, hk2]

/-- The pure result of `copyKeys` when every lookup succeeds. -/
def setAll (src : List (String × SVal)) (keys : List String)
    (dst : List (String × SVal)) : List (String × SVal) :=
  keys.foldl (fun dd key =>
    match dictGet src key with
    | some v => dictSet dd key v
    | none => dd) dst

theorem copyKeys_eq_setAll (src : List (String × SVal)) (keys : List String)
    (dst : List (String × SVal)) (h : ∀ k ∈ keys, (dictGet src k).isSome) :
    copyKeys src keys dst = some (setAll src keys dst) := by
  induction keys generalizing dst with
  | nil => rfl
  | cons k ks ih =>
    obtain ⟨v, hv⟩ := Option.isSome_iff_exists.mp (h k (by simp))
    rw [copyKeys, List.foldlM_cons, hv]
    show copyKeys src ks (dictSet dst k v) = _
    rw [ih (dictSet dst k v) (fun m hm => h m (by simp [hm]))]
    conv_rhs => rw [setAll, List.foldl_cons, hv]
    rfl

theorem dictGet_setAll_not_mem (src : List (String × SVal)) (keys : List String)
    (dst : List (String × SVal)) (k : String) (h : k ∉ keys) :
    dictGet (setAll src keys dst) k = dictGet dst k := by
  induction keys generalizing dst with
  | nil => rfl
  | cons m ms ih =>
    rw [setAll, List.foldl_cons]
    cases hv : dictGet src m with
    | none =>
      exact ih dst (fun hx => h (List.mem_cons_of_mem m hx))
    | some v =>
      rw [show (List.foldl (fun dd key => match dictGet src key with
          | some v => dictSet dd key v
          | none => dd) (dictSet dst m v) ms) = setAll src ms (dictSet dst m v) from rfl]
      rw [ih (dictSet dst m v) (fun hx => h (List.mem_cons_of_mem m hx))]
      exact dictGet_dictSet_other dst m k v (fun hx => h (by simp [hx]))

theorem dictGet_setAll_mem (src : List (String × SVal)) (keys : List String)
    (dst : List (String × SVal)) (k : String) (v : SVal) (hnd : keys.Nodup)
    (hk : k ∈ keys) (hv : dictGet src k = some v) :
    dictGet (setAll src keys dst) k = some v := by
  induction keys generalizing dst with
  | nil => cases hk
  | cons m ms ih =>
    rw [setAll, List.foldl_cons]
    by_cases hkm : k = m
    · subst hkm
      rw [hv]
      have hnotin : k ∉ ms := (List.nodup_cons.mp hnd).1
      rw [show (List.foldl (fun dd key => match dictGet src key with
          | some v => dictSet dd key v
          | none => dd) (dictSet dst k v) ms) = setAll src ms (dictSet dst k v) from rfl]
      rw [dictGet_setAll_not_mem src ms (dictSet dst k v) k hnotin]
      exact dictGet_dictSet_self dst k v
    · have hkms : k ∈ ms := by
        cases List.mem_cons.mp hk with
        | inl h0 => exact absurd h0 hkm
        | inr h0 => exact h0
      cases hdv : dictGet src m with
      | none => exact ih dst (List.nodup_cons.mp hnd).2 hkms
      | some w =>
        exact ih (dictSet dst m w) (List.nodup_cons.mp hnd).2 hkms

theorem dictGet_savePlaces_not_mem (items : List (String × List String × String))
    (s : List (String × SVal)) (k : String)
    (h : k ∉ items.map (fun p => p.1)) :
    dictGet (savePlaces items s) k = dictGet s k := by
  induction items generalizing s with
  | nil => rfl
  | cons q rest ih =>
    rw [savePlaces, List.foldl_cons]
    rw [show (List.foldl (fun st p => dictSet st p.1 (SVal.placeDef p.2.1 p.2.2))
        (dictSet s q.1 (SVal.placeDef q.2.1 q.2.2)) rest) =
      savePlaces rest (dictSet s q.1 (SVal.placeDef q.2.1 q.2.2)) from rfl]
    rw [ih (dictSet s q.1 (SVal.placeDef q.2.1 q.2.2)) (fun hx => h (by simp [hx]))]
    exact dictGet_dictSet_other s q.1 k _ (fun hx => h (by simp [hx]))

theorem dictGet_savePlaces_mem (items : List (String × List String × String))
    (s : List (String × SVal)) (p : String × List String × String)
    (hnd : (items.map (fun p => p.1)).Nodup) (hp : p ∈ items) :
    dictGet (savePlaces items s) p.1 = some (SVal.placeDef p.2.1 p.2.2) := by
  induction items generalizing s with
  | nil => cases hp
  | cons q rest ih =>
    rw [savePlaces, List.foldl_cons]
    rw [show (List.foldl (fun st p => dictSet st p.1 (SVal.placeDef p.2.1 p.2.2))
        (dictSet s q.1 (SVal.placeDef q.2.1 q.2.2)) rest) =
      savePlaces rest (dictSet s q.1 (SVal.placeDef q.2.1 q.2.2)) from rfl]
    rw [List.map_cons, List.nodup_cons] at hnd
    cases List.mem_cons.mp hp with
    | inl h0 =>
      subst h0
      rw [dictGet_savePlaces_not_mem rest _ p.1 hnd.1]
      exact dictGet_dictSet_self s p.1 _
    | inr h0 =>
      exact ih (dictSet s q.1 (SVal.placeDef q.2.1 q.2.2)) hnd.2 h0

theorem fromkeysEmpty_aux (names : List String) (acc : List (String × SVal))
    (hnd : names.Nodup) (hacc : ∀ n ∈ names, hasKey acc n = false) :
    names.foldl (fun d k => if hasKey d k then d else d ++ [(k, SVal.strList [])]) acc =
      acc ++ names.map (fun n => (n, SVal.strList [])) := by
  induction names generalizing acc with
  | nil => simp
  | cons n ns ih =>
    rw [List.foldl_cons, if_neg (by rw [hacc n (by simp)]; exact Bool.false_ne_true)]
    rw [List.nodup_cons] at hnd
    rw [ih (acc ++ [(n, SVal.strList [])]) hnd.2 ?_]
    · simp
    · intro m hm
      rw [hasKey, List.any_append]
      have h1 : hasKey acc m = false := hacc m (by simp [hm])
      have h2 : m ≠ n := fun hx => hnd.1 (hx ▸ hm)
      rw [hasKey] at h1
      rw [h1]
      simp [Ne.symm h2]

theorem fromkeysEmpty_nodup (names : List String) (hnd : names.Nodup) :
    fromkeysEmpty names = names.map (fun n => (n, SVal.strList [])) := by
  rw [fromkeysEmpty, fromkeysEmpty_aux names [] hnd (fun n _ => rfl)]
  simp

theorem dump_eq (s : List (String × SVal)) (names : List String)
    (hnd : names.Nodup)
    (h1 : dictGet s "places" = some (SVal.strList names))
    (hsrc : ∀ k ∈ names, (dictGet s k).isSome) :
    session_state_dump s = some (dictSet
      (setAll s names (names.map (fun n => (n, SVal.strList []))))
      "places" (SVal.strList names)) := by
  unfold session_state_dump
  rw [h1]
  have hkeys : ((names.map (fun n => (n, SVal.strList []))).map (fun p => p.1)) =
      names := by
    rw [List.map_map]
    exact List.map_id names
  simp only [fromkeysEmpty_nodup names hnd, hkeys,
    copyKeys_eq_setAll s names (names.map (fun n => (n, SVal.strList []))) hsrc]

theorem submit_eq (d : List (String × SVal)) (s0 : List (String × SVal))
    (names : List String)
    (h1 : dictGet d "places" = some (SVal.strList names))
    (hsrc : ∀ k ∈ names, (dictGet d k).isSome) :
    submit d s0 = some (setAll d names
      (dictSet s0 "places" (SVal.strList names))) := by
  unfold submit
  rw [h1]
  simp only [copyKeys_eq_setAll d names
    (dictSet s0 "places" (SVal.strList names)) hsrc]

/-- A collection whose single place is named `"places"` — the name that the
export reserves for the place list itself. -/
def cBad : PlaceCollection := ⟨[("places", (["A"], "X"))]⟩

/-- C8 counterexample: a place named `"places"` collides with the session
key holding the place list.  Saving it leaves the session holding only the
name list under `"places"`; the dump emits a document whose sole entry is
that list, reloading reproduces the same degenerate session, and no
session state at all can hold this collection, so the round trip cannot
reproduce it: the membership list `["A"]` and region `"X"` are lost. -/
theorem C8_counterexample :
    encodeCollection cBad = [("places", SVal.strList ["places"])] ∧
    session_state_dump (encodeCollection cBad) =
      some [("places", SVal.strList ["places"])] ∧
    submit [("places", SVal.strList ["places"])] [] =
      some [("places", SVal.strList ["places"])] ∧
    ¬ loadsCollection [("places", SVal.strList ["places"])] cBad ∧
    (∀ s : List (String × SVal), ¬ loadsCollection s cBad) := by
  refine ⟨by decide, by decide, by decide, by decide, ?_⟩
  intro s h
  have h2 := h.2 ("places", (["A"], "X")) (by decide)
  rw [h.1] at h2
  simp [cBad, PlaceCollection.names] at h2

/-- C8 amended: the JSON export/reload round trip is faithful exactly on
collections none of whose places is named `"places"`: if the session holds
such a collection (distinct place names, each with its definition saved),
the dump succeeds, and reloading the dumped document into any session
yields a session that again holds the full collection — same name list,
same memberships, same region assignments. -/
theorem C8_amended (c : PlaceCollection) (s s0 : List (String × SVal))
    (hp : "places" ∉ c.names) (hnd : c.names.Nodup)
    (hload : loadsCollection s c) :
    ∃ d s', session_state_dump s = some d ∧ submit d s0 = some s' ∧
      loadsCollection s' c := by
  have hsrc : ∀ k ∈ c.names, (dictGet s k).isSome := by
    intro k hk
    obtain ⟨p, hpmem, hpk⟩ := List.mem_map.mp hk
    rw [← hpk, hload.2 p hpmem]
    rfl
  have hd := dump_eq s c.names hnd hload.1 hsrc
  set m1 := c.names.map (fun n => (n, SVal.strList [])) with hm1
  set m2 := setAll s c.names m1 with hm2
  set d := dictSet m2 "places" (SVal.strList c.names) with hdd
  have hdplaces : dictGet d "places" = some (SVal.strList c.names) :=
    dictGet_dictSet_self m2 "places" (SVal.strList c.names)
  have hdentry : ∀ p ∈ c.items, dictGet d p.1 = some (SVal.placeDef p.2.1 p.2.2) := by
    intro p hpmem
    have hne : p.1 ≠ "places" := by
      intro hx
      exact hp (hx ▸ List.mem_map.mpr ⟨p, hpmem, rfl⟩)
    rw [hdd, dictGet_dictSet_other m2 "places" p.1 _ hne, hm2,
      dictGet_setAll_mem s c.names m1 p.1 _ hnd
        (List.mem_map.mpr ⟨p, hpmem, rfl⟩) (hload.2 p hpmem)]
  have hdsrc : ∀ k ∈ c.names, (dictGet d k).isSome := by
    intro k hk
    obtain ⟨p, hpmem, hpk⟩ := List.mem_map.mp hk
    rw [← hpk, hdentry p hpmem]
    rfl
  have hs := submit_eq d s0 c.names hdplaces hdsrc
  refine ⟨d, setAll d c.names (dictSet s0 "places" (SVal.strList c.names)),
    hd, hs, ?_, ?_⟩
  · rw [dictGet_setAll_not_mem d c.names _ "places" hp]
    exact dictGet_dictSet_self s0 "places" (SVal.strList c.names)
  · intro p hpmem
    exact dictGet_setAll_mem d c.names _ p.1 _ hnd
      (List.mem_map.mpr ⟨p, hpmem, rfl⟩) (hdentry p hpmem)

theorem C8_amended_witness :
    ∃ d s', session_state_dump
        [("places", SVal.strList ["P1"]), ("P1", SVal.placeDef ["A"] "X")] =
          some d ∧
      submit d [] = some s' ∧
      loadsCollection s' ⟨[("P1", (["A"], "X"))]⟩ :=
  C8_amended ⟨[("P1", (["A"], "X"))]⟩
    [("places", SVal.strList ["P1"]), ("P1", SVal.placeDef ["A"] "X")] []
    (by decide) (by decide) (by decide)
